import Mathlib

/-
Verification of the step-sequencing and validation state machine of
`custom_components/garbage_collection/config_flow.py`.

The embedding models Python dictionaries as association lists over a small
`Value` type.  Functions that can raise an uncaught Python exception
(`KeyError`, `TypeError`) return `Option`, with `none` standing for the
exception.  The modules `const.py`, `config_definition.py` and the
`homeassistant` helpers are not part of the sources; the definitions that
stand in for them carry a doc comment starting with `Modelled from the
spec:` and follow the specification's words.
-/

/-- A Python value stored in a configuration dictionary: a string, a
boolean, a list of strings or a list of integers. -/
inductive Value where
  | str : String → Value
  | bool : Bool → Value
  | listS : List String → Value
  | listN : List Nat → Value
  deriving DecidableEq, Repr

/-- A Python dict from field names to values, as an association list. -/
abbrev FMap := List (String × Value)

/-- Dictionary lookup (`d[k]` / `d.get(k)`). -/
def fmGet : FMap → String → Option Value
  | [], _ => none
  | p :: rest, k => if p.1 = k then some p.2 else fmGet rest k

/-- Dictionary membership (`k in d`). -/
def fmContains (m : FMap) (k : String) : Bool := (fmGet m k).isSome

/-- Dictionary deletion (`del d[k]`); removes every pair with the key. -/
def fmErase : FMap → String → FMap
  | [], _ => []
  | p :: rest, k => if p.1 = k then fmErase rest k else p :: fmErase rest k

/-- Dictionary assignment (`d[k] = v`). -/
def fmSet (m : FMap) (k : String) (v : Value) : FMap := fmErase m k ++ [(k, v)]

/-- Position-preserving dictionary assignment (`d[k] = v` on a dict):
an existing key keeps its place in insertion order, a new key is appended
at the end.  Used where the subsequent iteration order matters. -/
def fmUpdate : FMap → String → Value → FMap
  | [], k, v => [(k, v)]
  | p :: rest, k, v => if p.1 = k then (k, v) :: rest else p :: fmUpdate rest k v

/-- Dictionary merge (`d.update(u)`): entries of `u` win. -/
def fmMerge (m u : FMap) : FMap := u.foldl (fun a p => fmSet a p.1 p.2) m

/-- Python truthiness of a `Value` (`if v:`). -/
def truthy : Value → Bool
  | .str s => s ≠ ""
  | .bool b => b
  | .listS l => ¬ l.isEmpty
  | .listN l => ¬ l.isEmpty

/-- Python `len(v)`, `none` when `len` raises `TypeError` (booleans). -/
def valLen : Value → Option Nat
  | .str s => some s.length
  | .bool _ => none
  | .listS l => some l.length
  | .listN l => some l.length

/-- Split a character list at every occurrence of the character with code
`sep`, mirroring Python's `str.split`. -/
def splitOnChar (sep : Nat) : List Char → List (List Char)
  | [] => [[]]
  | c :: rest =>
    match splitOnChar sep rest with
    | [] => [[c]]
    | h :: t => if c.toNat = sep then [] :: h :: t else (c :: h) :: t

/-- A character stripped by `str.strip("'\x22 ")`: quote, double quote or
space. -/
def isStripChar (c : Char) : Bool := c.toNat = 39 || c.toNat = 34 || c.toNat = 32

/-- Python `x.strip("'\x22 ")`: drop the stripped characters from both ends. -/
def stripChars (l : List Char) : List Char :=
  ((l.dropWhile isStripChar).reverse.dropWhile isStripChar).reverse

/-- The string case of `string_to_list`: split on commas and strip each
token of surrounding quotes and whitespace; the empty string gives `[]`. -/
def stl (s : String) : List String :=
  if s = "" then []
  else (splitOnChar 44 s.data).map (fun l => String.mk (stripChars l))

/-- `string_to_list` of `config_flow.py`: a value that is already a list
passes through unchanged, the empty string gives `[]`, any other string is
split on commas with each token stripped.  `none` models the
`AttributeError` raised when `.split` is called on a non-string. -/
def string_to_list : Value → Option Value
  | .listS l => some (.listS l)
  | .listN l => some (.listN l)
  | .str s => some (.listS (stl s))
  | .bool _ => none

/-- Digit-list to number, for date parsing. -/
def digitsToNat (l : List Char) : Nat := l.foldl (fun a c => 10 * a + (c.toNat - 48)) 0

/-- A numeric field of `strptime`: one to `maxLen` digits. -/
def fieldNat (l : List Char) (maxLen : Nat) : Option Nat :=
  if l ≠ [] ∧ l.length ≤ maxLen ∧ l.all Char.isDigit then some (digitsToNat l) else none

/-- A fixed-width numeric field of `strptime`: exactly `len` digits
(CPython's `%Y` matches four digits, not fewer). -/
def fieldNatE (l : List Char) (len : Nat) : Option Nat :=
  if l.length = len ∧ l.all Char.isDigit then some (digitsToNat l) else none

/-- Gregorian leap-year rule used by Python's `datetime`. -/
def isLeap (y : Nat) : Bool := (y % 4 == 0 && y % 100 != 0) || y % 400 == 0

/-- Days in a month of a given year, as validated by `datetime`. -/
def daysInMonth (y m : Nat) : Nat :=
  if m = 2 then (if isLeap y then 29 else 28)
  else if m = 4 ∨ m = 6 ∨ m = 9 ∨ m = 11 then 30
  else if m = 1 ∨ m = 3 ∨ m = 5 ∨ m = 7 ∨ m = 8 ∨ m = 10 ∨ m = 12 then 31
  else 0

/-- `is_month_day` of `config_flow.py`: `datetime.strptime(s, "%m/%d")`
succeeds.  `strptime` fills in the default year 1900, so the day is
checked against the 1900 calendar (February has 28 days). -/
def is_month_day (s : String) : Bool :=
  match splitOnChar 47 s.data with
  | [a, b] =>
    match fieldNat a 2, fieldNat b 2 with
    | some m, some d => 1 ≤ m && m ≤ 12 && 1 ≤ d && d ≤ daysInMonth 1900 m
    | _, _ => false
  | _ => false

/-- `is_date` of `config_flow.py`: the empty string is accepted, otherwise
`datetime.strptime(s, "%Y-%m-%d")` must succeed (`%Y` is exactly four
digits, `%m`/`%d` one or two). -/
def is_date (s : String) : Bool :=
  if s = "" then true
  else
    match splitOnChar 45 s.data with
    | [y, m, d] =>
      match fieldNatE y 4, fieldNat m 2, fieldNat d 2 with
      | some yn, some mn, some dn =>
        1 ≤ yn && 1 ≤ mn && mn ≤ 12 && 1 ≤ dn && dn ≤ daysInMonth yn mn
      | _, _, _ => false
    | _ => false

/-- `is_dates` of `config_flow.py`: every element satisfies `is_date`. -/
def is_dates (dates : List String) : Bool := dates.all is_date

/-- Modelled from the spec: the external `homeassistant.const.WEEKDAYS`
constant, the seven weekday names in fixed weekday order (the code
lower-cases them to build field keys, and the spec writes day names
capitalised). -/
def WEEKDAYS : List String := ["Mon", "Tue", "Wed", "Thu", "Fri", "Sat", "Sun"]

/-- Python `str.lower()` on the character list of a string. -/
def strLower (s : String) : String := String.mk (s.data.map Char.toLower)

/-- The per-weekday flag key `collection_days_<weekday>`
(`f"collection_days_{day.lower()}"`). -/
def day_key (d : String) : String := "collection_days_" ++ strLower d

/-- The append step of `days_to_list`
(`src[CONF_COLLECTION_DAYS].append(day)`). -/
def days_append (d : String) (m : FMap) : FMap :=
  match fmGet m "collection_days" with
  | some (Value.listS l) => fmSet m "collection_days" (Value.listS (l ++ [d]))
  | _ => m

/-- The loop of `days_to_list`: read each weekday flag (KeyError → `none`),
append the selected day to the `collection_days` list, delete the flag. -/
def days_go : List String → FMap → Option FMap
  | [], m => some m
  | d :: rest, m =>
    match fmGet m (day_key d) with
    | none => none
    | some v =>
      days_go rest (fmErase (if truthy v then days_append d m else m) (day_key d))

/-- `days_to_list` of `config_flow.py`: compile the `collection_days` list
from the seven per-weekday boolean flags and delete the flags; a no-op if
the list field is already present; `none` models the `KeyError` raised
when a flag is missing. -/
def days_to_list (src : FMap) : Option FMap :=
  if fmContains src "collection_days" then some src
  else days_go WEEKDAYS (fmSet src "collection_days" (Value.listS []))

/-- The ordinal flag key `<prefix>_<i>`. -/
def wk_key (pfx : String) (i : Nat) : String := pfx ++ "_" ++ toString i

/-- The append step of `weekdays_to_list` (`src[prefix].append(i + 1)`). -/
def wk_append (pfx : String) (i : Nat) (m : FMap) : FMap :=
  match fmGet m pfx with
  | some (Value.listN l) => fmSet m pfx (Value.listN (l ++ [i]))
  | _ => m

/-- The loop of `weekdays_to_list`: read each ordinal flag (KeyError →
`none`), append the selected ordinal to the list under `pfx`, delete the
flag. -/
def weekdays_go (pfx : String) : List Nat → FMap → Option FMap
  | [], m => some m
  | i :: rest, m =>
    match fmGet m (wk_key pfx i) with
    | none => none
    | some v =>
      weekdays_go pfx rest (fmErase (if truthy v then wk_append pfx i m else m) (wk_key pfx i))

/-- `weekdays_to_list` of `config_flow.py`: compile the ordinal list under
`pfx` from the five flags `pfx_1` … `pfx_5` and delete the flags; a no-op
if the list field is already present; `none` models the `KeyError` raised
when a flag is missing. -/
def weekdays_to_list (src : FMap) (pfx : String) : Option FMap :=
  if fmContains src pfx then some src
  else weekdays_go pfx [1, 2, 3, 4, 5] (fmSet src pfx (Value.listN []))

/-- Python substring test on character lists (`pat in hay`). -/
def listHas : List Char → List Char → Bool
  | [], pat => pat.isEmpty
  | h :: t, pat => pat.isPrefixOf (h :: t) || listHas t pat

/-- Python substring test on strings (`pat in hay`). -/
def strHas (hay pat : String) : Bool := listHas hay.data pat.data

/-- Modelled from the spec: `ANNUAL_FREQUENCY` of the missing `const.py`
(the annual-like category). -/
def ANNUAL_FREQUENCY : List String := ["annual"]

/-- Modelled from the spec: `GROUP_FREQUENCY` of the missing `const.py`
(the group-like category). -/
def GROUP_FREQUENCY : List String := ["group"]

/-- Modelled from the spec: `ANNUAL_GROUP_FREQUENCY` of the missing
`const.py` (annual-like and group-like categories). -/
def ANNUAL_GROUP_FREQUENCY : List String := ["annual", "group"]

/-- Modelled from the spec: `DAILY_BLANK_FREQUENCY` of the missing
`const.py` (the daily/blank minimal-parameter categories). -/
def DAILY_BLANK_FREQUENCY : List String := ["every-n-days", "blank"]

/-- Modelled from the spec: `MONTHLY_FREQUENCY` of the missing `const.py`
(the monthly-like category). -/
def MONTHLY_FREQUENCY : List String := ["monthly"]

/-- Modelled from the spec: the closed set of frequency category values. -/
def FREQUENCY_OPTIONS : List String :=
  ["weekly", "even-weeks", "odd-weeks", "every-n-weeks", "every-n-days",
   "monthly", "annual", "group", "blank"]

/-- Python `v in l` for a value against a list of frequency strings. -/
def freqIn (v : Value) (l : List String) : Bool :=
  match v with
  | .str s => l.contains s
  | _ => false

/-- Modelled from the spec: the Schema Definition Registry's option table
of the missing `config_definition.py` — field name, owning step, and the
frequency categories the field applies to (`none` = all). -/
def optionsTable : List (String × Nat × Option (List String)) :=
  [("name", 1, none), ("frequency", 1, none),
   ("icon_normal", 1, none), ("icon_today", 1, none), ("icon_tomorrow", 1, none),
   ("expire_after", 1, none), ("include_dates", 1, none), ("exclude_dates", 1, none),
   ("first_date", 1, none),
   ("date", 2, some ANNUAL_FREQUENCY), ("entities", 2, some GROUP_FREQUENCY),
   ("collection_days", 3, none),
   ("holiday_pop_named", 4, none),
   ("weekday_order_number", 4, some MONTHLY_FREQUENCY),
   ("week_order_number", 4, some MONTHLY_FREQUENCY)]

/-- The field names tagged with a given step. -/
def stepFields (step : Nat) : List String :=
  (optionsTable.filter (fun p => p.2.1 == step)).map (·.1)

/-- Modelled from the spec: `config_definition.set_defaults` — copy the
step-tagged fields from `values` into the process-wide default storage. -/
def set_defaults (store : FMap) (step : Nat) (values : FMap) : FMap :=
  (stepFields step).foldl
    (fun st k => match fmGet values k with | some v => fmSet st k v | none => st) store

/-- Modelled from the spec: `config_definition.join_list` — turn a stored
list default back into comma-separated text for re-display. -/
def join_list (store : FMap) (k : String) : FMap :=
  match fmGet store k with
  | some (.listS l) => fmSet store k (.str (String.intercalate "," l))
  | _ => store

/-- Does a field's `valid_for` tag admit the given frequency value? -/
def matchesValidFor (vf : Option (List String)) (fv : Option Value) : Bool :=
  match vf with
  | none => true
  | some l => match fv with | some v => freqIn v l | none => false

/-- Modelled from the spec: `config_definition.compile_config_flow` — the
display schema for a step: the step's applicable fields with defaults
drawn from the process-wide default storage. -/
def compile_config_flow (step : Nat) (fv : Option Value) (store : FMap) : FMap :=
  (optionsTable.filter (fun p => p.2.1 == step && matchesValidFor p.2.2 fv)).map
    (fun p => (p.1, (fmGet store p.1).getD (Value.str "")))

/-- Default of a weekday flag when re-displaying: the day is in the stored
`collection_days` default (Python `in`: list membership, or substring when
the default is a joined string). -/
def day_default (store : FMap) (d : String) : Bool :=
  match fmGet store "collection_days" with
  | some (.listS l) => l.contains d
  | some (.str s) => strHas s d
  | _ => false

/-- `list_to_days` of `config_flow.py`: rebuild the seven weekday flag
fields at the front of the display schema, drop the `collection_days`
field, keep every other field. -/
def list_to_days (ds : FMap) (store : FMap) : FMap :=
  (WEEKDAYS.map (fun d => (day_key d, Value.bool (day_default store d)))) ++
    fmErase ds "collection_days"

/-- Default of an ordinal flag when re-displaying. -/
def wk_default (store : FMap) (pfx : String) (i : Nat) : Bool :=
  match fmGet store pfx with
  | some (.listN l) => l.contains i
  | _ => false

/-- `list_to_weekdays` of `config_flow.py`: rebuild the five ordinal flag
fields at the front of the display schema, drop both ordinal list fields,
keep every other field. -/
def list_to_weekdays (ds : FMap) (store : FMap) (pfx : String) : FMap :=
  ([1, 2, 3, 4, 5].map (fun i => (wk_key pfx i, Value.bool (wk_default store pfx i)))) ++
    fmErase (fmErase ds "weekday_order_number") "week_order_number"

/-- Modelled from the spec: validity of an icon field (the external
`cv.icon` helper: the value must be a string containing a colon). -/
def icon_ok (v : Value) : Bool :=
  match v with
  | .str s => s.data.any (fun c => c.toNat = 58)
  | _ => false

/-- Modelled from the spec: validity of the expiry duration — a
`HH:MM` or `HH:MM:SS` time of day. -/
def expire_ok (v : Value) : Bool :=
  match v with
  | .str s =>
    match splitOnChar 58 s.data with
    | [h, m] =>
      match fieldNat h 2, fieldNat m 2 with
      | some hn, some mn => hn ≤ 23 && mn ≤ 59
      | _, _ => false
    | [h, m, sec] =>
      match fieldNat h 2, fieldNat m 2, fieldNat sec 2 with
      | some hn, some mn, some sn => hn ≤ 23 && mn ≤ 59 && sn ≤ 59
      | _, _, _ => false
    | _ => false
  | _ => false

/-- A date-list field is valid when it is a list all of whose elements
satisfy `is_date`. -/
def dates_field_ok (v : Value) : Bool :=
  match v with
  | .listS l => is_dates l
  | _ => false

/-- The `first_date` field is valid when it is a string satisfying
`is_date`. -/
def first_date_ok (v : Value) : Bool :=
  match v with
  | .str s => is_date s
  | _ => false

/-- The frequency field is valid when it is one of the closed category
values. -/
def freq_ok (v : Value) : Bool :=
  match v with
  | .str s => FREQUENCY_OPTIONS.contains s
  | _ => false

/-- An optional field passes when absent, and must satisfy `p` when
present. -/
def checkOpt (ui : FMap) (k : String) (p : Value → Bool) : Bool :=
  match fmGet ui k with
  | none => true
  | some v => p v

/-- The frequency field is present and valid. -/
def freq_present_ok (ui : FMap) : Bool :=
  match fmGet ui "frequency" with
  | some v => freq_ok v
  | none => false

/-- Modelled from the spec: the per-field validator the step-1 schema of
the missing `config_definition.py` attaches to a key — the closed
frequency list, the date-list fields, the annual first date, the icons
and the expiry duration.  `name` (a plain string marker) and extra keys
under `ALLOW_EXTRA` carry no validator. -/
def fieldValidator (k : String) : Option (Value → Bool) :=
  if k = "frequency" then some freq_ok
  else if k = "include_dates" then some dates_field_ok
  else if k = "exclude_dates" then some dates_field_ok
  else if k = "first_date" then some first_date_ok
  else if k = "icon_normal" then some icon_ok
  else if k = "icon_today" then some icon_ok
  else if k = "icon_tomorrow" then some icon_ok
  else if k = "expire_after" then some expire_ok
  else none

/-- One submitted pair passes its schema validator (vacuously when the key
has none). -/
def pairOk (p : String × Value) : Bool :=
  match fieldValidator p.1 with
  | some q => q p.2
  | none => true

/-- `vol.Schema.__call__` walks the submitted dict in insertion order and
collects a value error for each present key whose validator fails;
`str(MultipleInvalid)` is the message of the first collected error, which
names that key. -/
def firstFault : List (String × Value) → Option String
  | [] => none
  | p :: rest => if pairOk p then firstFault rest else some p.1

/-- Required-key errors (`name` while it is in the schema, and
`frequency`) are appended by voluptuous after all value errors, in schema
order, so they are reported only when every present field validates. -/
def requiredMissing (ui : FMap) (nameInSchema : Bool) : Option String :=
  if nameInSchema ∧ ¬ fmContains ui "name" then some "name"
  else if ¬ fmContains ui "frequency" then some "frequency"
  else none

/-- Modelled from the spec: the step-1 validation — `vol.Schema` applied
to the submission, returning the key named by `str(exception)`: the first
failing present field in insertion order, else the first missing required
key. -/
def validateStep1 (ui : FMap) (nameInSchema : Bool) : Except String Unit :=
  match firstFault ui with
  | some k => .error k
  | none =>
    match requiredMissing ui nameInSchema with
    | some k => .error k
    | none => .ok ()

/-- The step-1 error classification of `config_flow.py` (lines 86-102):
inspect the exception message for the date fields, then the icon fields,
then the expiry field, falling back to `"value"`. -/
def classify_step1 (msg : String) : String :=
  if strHas msg "include_dates" || strHas msg "exclude_dates" || strHas msg "first_date" then
    "date"
  else if strHas msg "icon_normal" || strHas msg "icon_today" || strHas msg "icon_tomorrow" then
    "icon"
  else if strHas msg "expire_after" then "time"
  else "value"

/-- Modelled from the spec: the step-2 validation — annual-like categories
require a valid month/day pair in the `date` field, group-like categories
require a non-empty entity reference, all other categories have an empty
step-2 ruleset. -/
def validateStep2 (fv : Value) (ui : FMap) : Except Unit FMap :=
  if freqIn fv ANNUAL_FREQUENCY then
    match fmGet ui "date" with
    | some (.str s) => if is_month_day s then .ok ui else .error ()
    | _ => .error ()
  else if freqIn fv GROUP_FREQUENCY then
    match fmGet ui "entities" with
    | some v => if truthy v then .ok ui else .error ()
    | none => .error ()
  else .ok ui

/-- Python `str.strip()` restricted to the space character, for the
external `cv.boolean` helper. -/
def stripWS (s : String) : String :=
  String.mk (((s.data.dropWhile (fun c => c.toNat = 32)).reverse.dropWhile
    (fun c => c.toNat = 32)).reverse)

/-- The external `cv.boolean` coercion: booleans pass; strings are
lower-cased and stripped and must be one of `1/true/yes/on/enable` or
`0/false/no/off/disable`; anything else raises (numbers coerce too but
have no representation in `Value`). -/
def coerceBool : Value → Option Bool
  | .bool b => some b
  | .str s =>
    let t := stripWS (strLower s)
    if t = "1" ∨ t = "true" ∨ t = "yes" ∨ t = "on" ∨ t = "enable" then some true
    else if t = "0" ∨ t = "false" ∨ t = "no" ∨ t = "off" ∨ t = "disable" then some false
    else none
  | _ => none

/-- The collection-days field must be a list of weekday names. -/
def collection_days_ok (v : Value) : Bool :=
  match v with
  | .listS l => l.all (WEEKDAYS.contains ·)
  | _ => false

/-- The collection-days field is present and valid. -/
def cd_present_ok (u : FMap) : Bool :=
  match fmGet u "collection_days" with
  | some v => collection_days_ok v
  | none => false

/-- Modelled from the spec: the step-3 validation — the collection-days
list is validated, and for monthly-like categories the
`force_week_numbers` toggle declared in `config_flow.py` (lines 163-166,
`vol.Optional(..., default=False)` with `cv.boolean`) is coerced to a
boolean, with the default `False` filled in when absent. -/
def validateStep3 (fv : Value) (u : FMap) : Except Unit FMap :=
  if ¬ cd_present_ok u then .error ()
  else if freqIn fv MONTHLY_FREQUENCY then
    match fmGet u "force_week_numbers" with
    | some v =>
      match coerceBool v with
      | some b => .ok (fmSet u "force_week_numbers" (.bool b))
      | none => .error ()
    | none => .ok (fmSet u "force_week_numbers" (.bool false))
  else .ok u

/-- An ordinal list field must hold ordinals 1–5. -/
def ordinal_ok (v : Value) : Bool :=
  match v with
  | .listN l => l.all (fun i => decide (1 ≤ i) && decide (i ≤ 5))
  | _ => false

/-- Modelled from the spec: the step-4 validation — for monthly-like
categories the ordinal list fields are validated when present; the
holiday list (already transcoded) and the remaining optional fields
always pass. -/
def validateStep4 (fv : Value) (u : FMap) : Except Unit FMap :=
  if freqIn fv MONTHLY_FREQUENCY then
    if ¬ checkOpt u "week_order_number" ordinal_ok then .error ()
    else if ¬ checkOpt u "weekday_order_number" ordinal_ok then .error ()
    else .ok u
  else .ok u

/-- The state of one `GarbageCollectionShared` session: the accumulating
configuration record `_data`, the separately stored `name`, the single
classified `errors["base"]` entry (`none` = no error), the compiled
display schema, and the process-wide default storage of
`config_definition`. -/
structure FlowState where
  _data : FMap
  name : Option Value
  errors : Option String
  data_schema : FMap
  store : FMap
  deriving DecidableEq, Repr

/-- A fresh session: `reset_defaults()` has cleared the default storage and
`_data` holds only the unique identifier. -/
def initState (uid : String) : FlowState :=
  { _data := [("unique_id", .str uid)], name := none, errors := none,
    data_schema := [], store := [] }

/-- The removal loop of `update_data` (lines 58-60): for every field tagged
with the current step, drop it from the record when it is absent from the
user input or submitted as the empty string. -/
def stripFold (ui : FMap) (keys : List String) (d : FMap) : FMap :=
  keys.foldl
    (fun d k =>
      if fmContains d k ∧ (¬ fmContains ui k ∨ fmGet ui k = some (Value.str "")) then
        fmErase d k
      else d)
    d

/-- The name extraction of `update_data` (lines 61-63): move a `name` entry
out of the record into the separate `name` attribute. -/
def extractName (st : FlowState) (d : FMap) : FlowState :=
  if fmContains d "name" then { st with _data := fmErase d "name", name := fmGet d "name" }
  else { st with _data := d }

/-- `update_data` of `config_flow.py`: merge the user input into the
record, drop this step's fields that were submitted empty or not at all,
and extract the name. -/
def update_data (st : FlowState) (ui : FMap) (step : Nat) : FlowState :=
  extractName st (stripFold ui (stepFields step) (fmMerge st._data ui))

/-- The in-place `string_to_list` conversion of one field of the user
input (`none` models the exception on a non-string non-list value).  The
reassignment keeps the key's position in insertion order, which the
subsequent schema walk observes. -/
def convertField (ui : FMap) (k : String) : Option FMap :=
  match fmGet ui k with
  | none => some ui
  | some v => (string_to_list v).map (fmUpdate ui k)

/-- Lines 115-116: the name field is removed from the display schema in
edit mode (`defaults` given). -/
def stripNameSchema (defaults : Option FMap) (ds : FMap) : FMap :=
  if defaults.isSome then fmErase ds "name" else ds

/-- `step1_user_init` of `config_flow.py`.  Returns `(advanced, state)`;
`none` models an uncaught exception. -/
def step1_user_init (st : FlowState) (user_input : Option FMap)
    (defaults : Option FMap) : Option (Bool × FlowState) :=
  let st := { st with errors := none }
  match user_input with
  | some ui0 =>
    match convertField ui0 "include_dates" with
    | none => none
    | some ui1 =>
      match convertField ui1 "exclude_dates" with
      | none => none
      | some ui =>
        match validateStep1 ui defaults.isNone with
        | .error field =>
          let st := { st with errors := some (classify_step1 field),
                              store := set_defaults st.store 1 ui }
          some (false, { st with
            data_schema := stripNameSchema defaults (compile_config_flow 1 none st.store) })
        | .ok _ => some (true, update_data st ui 1)
  | none =>
    let st :=
      match defaults with
      | some d =>
        let s0 := set_defaults [] 1 d
        let s1 := join_list s0 "exclude_dates"
        { st with store := join_list s1 "include_dates" }
      | none => st
    some (false, { st with
      data_schema := stripNameSchema defaults (compile_config_flow 1 none st.store) })

/-- The re-display branch shared by the empty-input paths of
`step2_annual_group`. -/
def step2_form (st : FlowState) (fv : Value) (defaults : Option FMap) : FlowState :=
  let st :=
    match defaults with
    | some d => { st with store := set_defaults st.store 2 d }
    | none => st
  { st with data_schema := compile_config_flow 2 (some fv) st.store }

/-- `step2_annual_group` of `config_flow.py`.  Returns `(advanced, state)`;
`none` models an uncaught exception (`KeyError` when the frequency is
missing, or on the `entities` read of line 143). -/
def step2_annual_group (st : FlowState) (user_input : Option FMap)
    (defaults : Option FMap) : Option (Bool × FlowState) :=
  let st := { st with errors := none, data_schema := [] }
  match fmGet st._data "frequency" with
  | none => none
  | some fv =>
    match user_input with
    | some ui =>
      if ui ≠ [] then
        match validateStep2 fv ui with
        | .error _ =>
          let st := { st with
            errors := some (if freqIn fv ANNUAL_FREQUENCY then "month_day" else "entities"),
            store := set_defaults st.store 2 ui }
          some (false, { st with data_schema := compile_config_flow 2 (some fv) st.store })
        | .ok updates =>
          if freqIn fv GROUP_FREQUENCY then
            match fmGet ui "entities" with
            | none => none
            | some ev =>
              match string_to_list ev with
              | none => none
              | some lv => some (true, update_data st (fmSet updates "entities" lv) 2)
          else some (true, update_data st updates 2)
      else some (false, step2_form st fv defaults)
    | none => some (false, step2_form st fv defaults)

/-- The re-display tail of `step3_detail` (lines 181-195): compile the
step-3 schema, rebuild the weekday flags, and for monthly-like categories
add the `force_week_numbers` toggle with its computed default. -/
def step3_tail (st : FlowState) (fv : Value) (user_input : Option FMap)
    (defaults : Option FMap) : FlowState :=
  let ds := list_to_days (compile_config_flow 3 (some fv) st.store) st.store
  if freqIn fv MONTHLY_FREQUENCY then
    let fwn : Value :=
      match user_input with
      | some ui =>
        match fmGet ui "force_week_numbers" with
        | some v => v
        | none =>
          match defaults with
          | some d => if fmContains d "week_order_number" then .bool true else .bool false
          | none => .bool false
      | none =>
        match defaults with
        | some d => if fmContains d "week_order_number" then .bool true else .bool false
        | none => .bool false
    { st with data_schema := fmSet ds "force_week_numbers" fwn }
  else { st with data_schema := ds }

/-- `step3_detail` of `config_flow.py`.  Returns `(advanced, state)`;
`none` models an uncaught exception (missing frequency, a missing weekday
flag in `days_to_list`, or `len()` on a boolean). -/
def step3_detail (st : FlowState) (user_input : Option FMap)
    (defaults : Option FMap) : Option (Bool × FlowState) :=
  let st := { st with errors := none, data_schema := [] }
  match fmGet st._data "frequency" with
  | none => none
  | some fv =>
    match user_input with
    | some ui =>
      if ui ≠ [] then
        match days_to_list ui with
        | none => none
        | some updates0 =>
          let vres := validateStep3 fv updates0
          let errs1 : Option String :=
            match vres with | .error _ => some "value" | .ok _ => none
          let updates := match vres with | .error _ => updates0 | .ok u => u
          match fmGet updates "collection_days" with
          | none => none
          | some cd =>
            match valLen cd with
            | none => none
            | some n =>
              let errs := if n == 0 then some "days" else errs1
              match errs with
              | none => some (true, update_data st updates 3)
              | some e =>
                some (false, step3_tail { st with errors := some e } fv user_input defaults)
      else
        let st :=
          match defaults with
          | some d => { st with store := set_defaults st.store 3 d }
          | none => st
        some (false, step3_tail st fv user_input defaults)
    | none =>
      let st :=
        match defaults with
        | some d => { st with store := set_defaults st.store 3 d }
        | none => st
      some (false, step3_tail st fv user_input defaults)

/-- The re-display tail of `step4_final` (lines 246-253): compile the
step-4 schema and, for monthly-like categories, rebuild the ordinal flags
chosen by the stored toggle (`none` when the toggle is missing). -/
def step4_tail (st : FlowState) (fv : Value) : Option FlowState :=
  let ds := compile_config_flow 4 (some fv) st.store
  if freqIn fv MONTHLY_FREQUENCY then
    match fmGet st._data "force_week_numbers" with
    | none => none
    | some tv =>
      let pfx := if truthy tv then "week_order_number" else "weekday_order_number"
      some { st with data_schema := list_to_weekdays ds st.store pfx }
  else some { st with data_schema := ds }

/-- The success cleanup of `step4_final` (lines 232-239): when the toggle
is in the record, delete the unused ordinal list and the toggle itself. -/
def step4_cleanup (d : FMap) : FMap :=
  if fmContains d "force_week_numbers" then
    let tv := (fmGet d "force_week_numbers").getD (Value.bool false)
    let d1 :=
      if truthy tv then
        (if fmContains d "weekday_order_number" then fmErase d "weekday_order_number" else d)
      else
        (if fmContains d "week_order_number" then fmErase d "week_order_number" else d)
    fmErase d1 "force_week_numbers"
  else d

/-- `step4_final` of `config_flow.py`.  Returns `(advanced, state)`;
`none` models an uncaught exception (missing frequency or toggle, a
missing ordinal flag in `weekdays_to_list`, or `len()` on a boolean). -/
def step4_final (st : FlowState) (user_input : Option FMap)
    (defaults : Option FMap) : Option (Bool × FlowState) :=
  let st := { st with errors := none, data_schema := [] }
  match fmGet st._data "frequency" with
  | none => none
  | some fv =>
    match user_input with
    | some ui =>
      if ui ≠ [] then
        (if freqIn fv MONTHLY_FREQUENCY then
            match fmGet st._data "force_week_numbers" with
            | none => none
            | some tv =>
              weekdays_to_list ui
                (if truthy tv then "week_order_number" else "weekday_order_number")
          else some ui).bind (fun updates0 =>
        (match fmGet updates0 "holiday_pop_named" with
         | none => some updates0
         | some hv => (string_to_list hv).map (fmSet updates0 "holiday_pop_named")).bind
          (fun updates1 =>
        let vres := validateStep4 fv updates1
        let errs0 : Option String :=
          match vres with | .error _ => some "value" | .ok _ => none
        let updates := match vres with | .error _ => updates1 | .ok u => u
        (if freqIn fv MONTHLY_FREQUENCY then
            match fmGet st._data "force_week_numbers" with
            | none => none
            | some tv =>
              let key := if truthy tv then "week_order_number" else "weekday_order_number"
              match fmGet updates key with
              | none => none
              | some v =>
                match valLen v with
                | none => none
                | some n => some (if n == 0 then some key else errs0)
          else some errs0).bind (fun errs =>
        match errs with
        | none =>
          let st1 := update_data st updates 4
          let d2 := step4_cleanup st1._data
          let d3 := if fmContains d2 "name" then fmErase d2 "name" else d2
          some (true, { st1 with _data := d3 })
        | some e => (step4_tail { st with errors := some e } fv).map (fun s => (false, s)))))
      else
        let st :=
          match defaults with
          | some d =>
            { st with store := join_list (set_defaults st.store 4 d) "holiday_pop_named" }
          | none => st
        (step4_tail st fv).map (fun s => (false, s))
    | none =>
      let st :=
        match defaults with
        | some d =>
          { st with store := join_list (set_defaults st.store 4 d) "holiday_pop_named" }
        | none => st
      (step4_tail st fv).map (fun s => (false, s))

/-- The identifiers of the wizard's form steps. -/
inductive StepId where
  | user
  | annual_group
  | detail
  | final
  deriving DecidableEq, Repr

/-- The `frequency` property of `GarbageCollectionShared`: the stored
category, or `None` when not yet set. -/
def frequencyProp (st : FlowState) : Option Value := fmGet st._data "frequency"

/-- The dispatch of `async_step_user` / `async_step_init` after a
successful step 1 (lines 288-293 and 388-394): annual/group categories go
to the annual-group step, daily/blank to the final step, everything else
to the detail step. -/
def route_after_step1 (fv : Option Value) : StepId :=
  match fv with
  | some v =>
    if freqIn v ANNUAL_GROUP_FREQUENCY then .annual_group
    else if freqIn v DAILY_BLANK_FREQUENCY then .final
    else .detail
  | none => .detail

/-- `async_step_user` of the config-flow handler, reduced to the step it
routes to: the re-shown step-1 form when step 1 does not advance,
otherwise the frequency-determined next step. -/
def async_step_user_route (st : FlowState) (ui : Option FMap)
    (defaults : Option FMap) : Option StepId :=
  (step1_user_init st ui defaults).map
    (fun r => if r.1 then route_after_step1 (frequencyProp r.2) else .user)

/-- A step-1 form submission with only the five Monday–Friday flags (the
flag set the spec describes). -/
def fiveFlagInput : FMap :=
  [("collection_days_mon", Value.bool true), ("collection_days_tue", Value.bool false),
   ("collection_days_wed", Value.bool true), ("collection_days_thu", Value.bool false),
   ("collection_days_fri", Value.bool false)]

/-- All seven weekday flags with Monday and Wednesday selected. -/
def monWedFlags : FMap :=
  [("collection_days_mon", Value.bool true), ("collection_days_tue", Value.bool false),
   ("collection_days_wed", Value.bool true), ("collection_days_thu", Value.bool false),
   ("collection_days_fri", Value.bool false), ("collection_days_sat", Value.bool false),
   ("collection_days_sun", Value.bool false)]

/-- The state produced by submitting an empty dict to step 1 of a fresh
session: the required name is missing, so the step fails with the
catch-all error kind. -/
def emptyStep1FailState : FlowState :=
  { _data := [("unique_id", Value.str "u")], name := none, errors := some "value",
    data_schema :=
      [("name", Value.str ""), ("frequency", Value.str ""), ("icon_normal", Value.str ""),
       ("icon_today", Value.str ""), ("icon_tomorrow", Value.str ""),
       ("expire_after", Value.str ""), ("include_dates", Value.str ""),
       ("exclude_dates", Value.str ""), ("first_date", Value.str "")],
    store := [] }

/-- A valid step-1 submission choosing the annual category. -/
def annualStep1Input : FMap := [("name", Value.str "t"), ("frequency", Value.str "annual")]

/-- The session state after the annual step-1 submission succeeds. -/
def annualStep1State : FlowState :=
  { _data := [("unique_id", Value.str "u"), ("frequency", Value.str "annual")],
    name := some (Value.str "t"), errors := none, data_schema := [], store := [] }

/-- A step-2 submission that carries a valid annual date and also smuggles
in a new frequency value as an extra key. -/
def freqSmuggleInput : FMap := [("frequency", Value.str "weekly"), ("date", Value.str "12/25")]

/-- A valid step-1 submission choosing the monthly category. -/
def monthlyStep1Input : FMap := [("name", Value.str "t"), ("frequency", Value.str "monthly")]

/-- The session state after the monthly step-1 submission succeeds. -/
def monthlyStep1State : FlowState :=
  { _data := [("unique_id", Value.str "u"), ("frequency", Value.str "monthly")],
    name := some (Value.str "t"), errors := none, data_schema := [], store := [] }

/-- A step-3 submission selecting Friday and leaving the week-numbers
toggle off. -/
def fridayFlagsInput : FMap :=
  [("collection_days_mon", Value.bool false), ("collection_days_tue", Value.bool false),
   ("collection_days_wed", Value.bool false), ("collection_days_thu", Value.bool false),
   ("collection_days_fri", Value.bool true), ("collection_days_sat", Value.bool false),
   ("collection_days_sun", Value.bool false)]

/-- The session state after the monthly step 3 succeeds with Friday
selected and the toggle stored as false. -/
def monthlyStep3State : FlowState :=
  { _data := [("unique_id", Value.str "u"), ("frequency", Value.str "monthly"),
              ("collection_days", Value.listS ["Fri"]), ("force_week_numbers", Value.bool false)],
    name := some (Value.str "t"), errors := none, data_schema := [], store := [] }

/-- A step-4 submission selecting the first weekday ordinal. -/
def weekdayOrdinalInput : FMap :=
  [("weekday_order_number_1", Value.bool true), ("weekday_order_number_2", Value.bool false),
   ("weekday_order_number_3", Value.bool false), ("weekday_order_number_4", Value.bool false),
   ("weekday_order_number_5", Value.bool false)]

/-- The same step-4 submission with the step-3 toggle smuggled in as an
extra key carrying the opposite value. -/
def toggleSmuggledInput : FMap :=
  weekdayOrdinalInput ++ [("force_week_numbers", Value.bool true)]

/-- A step-1 submission whose include-dates list is malformed and whose
icon field is malformed as well, the date field listed first. -/
def multiFaultInput : FMap :=
  [("name", Value.str "x"), ("frequency", Value.str "weekly"),
   ("include_dates", Value.str "2024-13-01"), ("icon_normal", Value.str "noColon")]

/-- The same two-fault submission with the malformed icon listed before
the malformed include-dates field. -/
def iconBeforeDateInput : FMap :=
  [("name", Value.str "x"), ("frequency", Value.str "weekly"),
   ("icon_normal", Value.str "noColon"), ("include_dates", Value.str "2024-13-01")]

/-- A step-1 submission whose only fault is a malformed icon. -/
def iconOnlyFaultInput : FMap :=
  [("name", Value.str "x"), ("frequency", Value.str "weekly"),
   ("icon_normal", Value.str "noColon")]

/-- Stored configuration used as the `defaults` argument of an edit
session. -/
def editDefaults : FMap :=
  [("frequency", Value.str "weekly"), ("include_dates", Value.listS ["2024-01-01"])]


/-- The state produced by submitting an empty dict to step 1 of an edit
session: validation runs (the required frequency is missing), the error is
classified as the catch-all kind, and the default storage stays empty
instead of being populated from the defaults argument. -/
def emptyEditStep1FailState : FlowState :=
  { _data := [("unique_id", Value.str "u")], name := none, errors := some "value",
    data_schema :=
      [("frequency", Value.str ""), ("icon_normal", Value.str ""),
       ("icon_today", Value.str ""), ("icon_tomorrow", Value.str ""),
       ("expire_after", Value.str ""), ("include_dates", Value.str ""),
       ("exclude_dates", Value.str ""), ("first_date", Value.str "")],
    store := [] }

/-- Lookup distributes over append: the left map wins. -/
theorem fmGet_append (a b : FMap) (k : String) :
    fmGet (a ++ b) k = match fmGet a k with | some v => some v | none => fmGet b k := by
  induction a with
  | nil => simp [fmGet]
  | cons p t ih =>
    by_cases h : p.1 = k
    · simp [fmGet, h]
    · simp [fmGet, h, ih]

/-- After deletion the key is gone. -/
theorem fmGet_erase_self (m : FMap) (k : String) : fmGet (fmErase m k) k = none := by
  induction m with
  | nil => rfl
  | cons p t ih => by_cases h : p.1 = k <;> simp [fmErase, h, fmGet, ih]

/-- Deletion leaves other keys untouched. -/
theorem fmGet_erase_ne (m : FMap) (k k' : String) (h : k' ≠ k) :
    fmGet (fmErase m k) k' = fmGet m k' := by
  induction m with
  | nil => rfl
  | cons p t ih =>
    by_cases h1 : p.1 = k
    · simp [fmErase, h1, fmGet, ih, Ne.symm h]
    · simp [fmErase, h1, fmGet, ih]

/-- A key absent before a deletion is absent after it. -/
theorem fmGet_erase_none (m : FMap) (k k' : String) (h : fmGet m k' = none) :
    fmGet (fmErase m k) k' = none := by
  by_cases hk : k' = k
  · subst hk; exact fmGet_erase_self m k'
  · rw [fmGet_erase_ne m k k' hk]; exact h

/-- Assignment stores the value. -/
theorem fmGet_set_self (m : FMap) (k : String) (v : Value) :
    fmGet (fmSet m k v) k = some v := by
  rw [fmSet, fmGet_append, fmGet_erase_self]
  simp [fmGet]

/-- Assignment leaves other keys untouched. -/
theorem fmGet_set_ne (m : FMap) (k : String) (v : Value) (k' : String) (h : k' ≠ k) :
    fmGet (fmSet m k v) k' = fmGet m k' := by
  rw [fmSet, fmGet_append, fmGet_erase_ne m k k' h]
  cases hg : fmGet m k' with
  | none => simp only [fmGet]; rw [if_neg (fun hk => h hk.symm)]
  | some v' => simp

/-- Merging a map without the key leaves the key's binding unchanged. -/
theorem fmGet_merge_none (m u : FMap) (k : String) (h : fmGet u k = none) :
    fmGet (fmMerge m u) k = fmGet m k := by
  induction u generalizing m with
  | nil => rfl
  | cons p t ih =>
    rw [fmGet] at h
    by_cases h1 : p.1 = k
    · simp [h1] at h
    · simp only [h1, if_false] at h
      rw [fmMerge] at *
      simp only [List.foldl_cons]
      have := ih (fmSet m p.1 p.2) h
      rw [fmMerge] at this
      rw [this, fmGet_set_ne m p.1 p.2 k (fun hk => h1 hk.symm)]

/-- A key present in the merged-in map is present in the merge. -/
theorem fmContains_merge_right (m u : FMap) (k : String) (h : fmContains u k = true) :
    fmContains (fmMerge m u) k = true := by
  induction u generalizing m with
  | nil => simp [fmContains, fmGet] at h
  | cons p t ih =>
    rw [fmMerge]
    simp only [List.foldl_cons]
    by_cases ht : fmContains t k
    · have := ih (fmSet m p.1 p.2) ht
      rw [fmMerge] at this
      exact this
    · have htn : fmGet t k = none := by
        rw [fmContains] at ht
        cases hg : fmGet t k with
        | none => rfl
        | some v => rw [hg] at ht; simp at ht
      have h1 : p.1 = k := by
        rw [fmContains, fmGet] at h
        by_cases h1 : p.1 = k
        · exact h1
        · rw [if_neg h1, htn] at h; simp at h
      have : fmGet (fmMerge (fmSet m p.1 p.2) t) k = fmGet (fmSet m p.1 p.2) k :=
        fmGet_merge_none _ _ _ htn
      rw [fmContains, fmMerge] at *
      rw [this, h1, fmGet_set_self]
      rfl

/-- An absent key reads as `none`. -/
theorem fmGet_eq_none_of_not_contains (m : FMap) (k : String)
    (h : fmContains m k = false) : fmGet m k = none := by
  rw [fmContains] at h
  cases hg : fmGet m k with
  | none => rfl
  | some v => rw [hg] at h; simp at h

/-- A weekday flag key is never the collection-days key itself. -/
theorem day_key_ne_cd (d : String) : day_key d ≠ "collection_days" := by
  intro h
  have hl := congrArg String.length h
  rw [day_key, String.length_append] at hl
  have : (16 : Nat) + (strLower d).length = 15 := hl
  omega

/-- An ordinal flag key `pfx_i` (1 ≤ i ≤ 5) is never the list key `pfx`
itself. -/
theorem wk_key_ne_pfx (pfx : String) (i : Nat) (hi : i ∈ [1, 2, 3, 4, 5]) :
    wk_key pfx i ≠ pfx := by
  intro h
  have hl := congrArg String.length h
  rw [wk_key, String.length_append, String.length_append] at hl
  have hu : ("_" : String).length = 1 := by decide
  have ht : (toString i).length = 1 := by fin_cases hi <;> decide
  rw [hu, ht] at hl
  omega

/-- The append step of `days_to_list` touches only the collection-days
key. -/
theorem days_append_get_ne (d : String) (m : FMap) (k : String)
    (hk : k ≠ "collection_days") : fmGet (days_append d m) k = fmGet m k := by
  rw [days_append]
  cases hg : fmGet m "collection_days" with
  | none => rfl
  | some v => cases v <;> first | rfl | exact fmGet_set_ne _ _ _ _ hk

/-- The append step of `weekdays_to_list` touches only the `pfx` key. -/
theorem wk_append_get_ne (pfx : String) (i : Nat) (m : FMap) (k : String)
    (hk : k ≠ pfx) : fmGet (wk_append pfx i m) k = fmGet m k := by
  rw [wk_append]
  cases hg : fmGet m pfx with
  | none => rfl
  | some v => cases v <;> first | rfl | exact fmGet_set_ne _ _ _ _ hk

/-- The removal loop of `update_data` leaves a key untouched when the key
is not tagged with the step, or was submitted with a non-empty value. -/
theorem stripFold_get (keys : List String) (ui d : FMap) (k : String)
    (h : k ∉ keys ∨ (fmContains ui k = true ∧ fmGet ui k ≠ some (Value.str ""))) :
    fmGet (stripFold ui keys d) k = fmGet d k := by
  induction keys generalizing d with
  | nil => rfl
  | cons k1 t ih =>
    have htail : k ∉ t ∨ (fmContains ui k = true ∧ fmGet ui k ≠ some (Value.str "")) := by
      cases h with
      | inl hn => exact .inl (fun hm => hn (List.mem_cons_of_mem _ hm))
      | inr hr => exact .inr hr
    show fmGet (stripFold ui t
      (if fmContains d k1 ∧ (¬ fmContains ui k1 ∨ fmGet ui k1 = some (Value.str "")) then
        fmErase d k1 else d)) k = fmGet d k
    rw [ih _ htail]
    by_cases hk : k1 = k
    · subst hk
      cases h with
      | inl hn => exact absurd (List.mem_cons_self _ _) hn
      | inr hr =>
        rw [if_neg]
        rintro ⟨_, hor⟩
        cases hor with
        | inl hnc => rw [hr.1] at hnc; simp at hnc
        | inr he => exact hr.2 he
    · by_cases hc : fmContains d k1 ∧ (¬ fmContains ui k1 ∨ fmGet ui k1 = some (Value.str ""))
      · rw [if_pos hc]; exact fmGet_erase_ne d k1 k (fun he => hk he.symm)
      · rw [if_neg hc]

/-- The name extraction of `update_data` leaves every other key untouched. -/
theorem extractName_data_get (st : FlowState) (d : FMap) (k : String) (h : k ≠ "name") :
    fmGet (extractName st d)._data k = fmGet d k := by
  rw [extractName]
  by_cases hc : fmContains d "name"
  · rw [if_pos hc]; exact fmGet_erase_ne d "name" k h
  · rw [if_neg hc]

/-- `update_data` does not change a key that the input omits and that is
not tagged with the current step. -/
theorem update_data_get_stable (st : FlowState) (ui : FMap) (step : Nat) (k : String)
    (hname : k ≠ "name") (hui : fmGet ui k = none) (hkeys : k ∉ stepFields step) :
    fmGet (update_data st ui step)._data k = fmGet st._data k := by
  rw [update_data, extractName_data_get _ _ _ hname,
      stripFold_get _ _ _ _ (.inl hkeys), fmGet_merge_none _ _ _ hui]

/-- `update_data` keeps a key that the input supplies with a non-empty
value. -/
theorem update_data_contains_present (st : FlowState) (ui : FMap) (step : Nat) (k : String)
    (hname : k ≠ "name") (hc : fmContains ui k = true)
    (hne : fmGet ui k ≠ some (Value.str "")) :
    fmContains (update_data st ui step)._data k = true := by
  rw [update_data, fmContains, extractName_data_get _ _ _ hname,
      stripFold_get _ _ _ _ (.inr ⟨hc, hne⟩)]
  have := fmContains_merge_right st._data ui k hc
  rw [fmContains] at this
  exact this

/-- `days_to_list`'s loop raises `KeyError` when any listed weekday flag is
missing. -/
theorem days_go_missing (L : List String) (m : FMap) (d : String)
    (hd : d ∈ L) (hmiss : fmGet m (day_key d) = none) : days_go L m = none := by
  induction L generalizing m with
  | nil => cases hd
  | cons h t ih =>
    rw [days_go]
    cases hg : fmGet m (day_key h) with
    | none => rfl
    | some v =>
      rcases List.mem_cons.mp hd with rfl | hdt
      · rw [hmiss] at hg; cases hg
      · apply ih _ hdt
        apply fmGet_erase_none
        by_cases ht : truthy v
        · rw [if_pos ht, days_append_get_ne _ _ _ (day_key_ne_cd d), hmiss]
        · rw [if_neg ht, hmiss]

/-- `weekdays_to_list`'s loop raises `KeyError` when any listed ordinal
flag is missing. -/
theorem weekdays_go_missing (pfx : String) (L : List Nat) (m : FMap) (i : Nat)
    (hL : ∀ j ∈ L, j ∈ [1, 2, 3, 4, 5]) (hi : i ∈ L)
    (hmiss : fmGet m (wk_key pfx i) = none) : weekdays_go pfx L m = none := by
  induction L generalizing m with
  | nil => cases hi
  | cons h t ih =>
    rw [weekdays_go]
    cases hg : fmGet m (wk_key pfx h) with
    | none => rfl
    | some v =>
      rcases List.mem_cons.mp hi with rfl | hit
      · rw [hmiss] at hg; cases hg
      · apply ih _ (fun j hj => hL j (List.mem_cons_of_mem _ hj)) hit
        apply fmGet_erase_none
        by_cases ht : truthy v
        · rw [if_pos ht,
            wk_append_get_ne _ _ _ _ (wk_key_ne_pfx pfx i (hL i (List.mem_cons_of_mem _ hit))),
            hmiss]
        · rw [if_neg ht, hmiss]

/-- A successful run of `weekdays_to_list`'s loop leaves every key other
than the list key and the flag keys unchanged. -/
theorem weekdays_go_get_preserved (pfx : String) (L : List Nat) (m m' : FMap) (k : String)
    (hk : k ≠ pfx) (hkeys : ∀ i ∈ L, k ≠ wk_key pfx i)
    (h : weekdays_go pfx L m = some m') : fmGet m' k = fmGet m k := by
  induction L generalizing m with
  | nil =>
    rw [weekdays_go] at h
    cases h
    rfl
  | cons i t ih =>
    rw [weekdays_go] at h
    cases hg : fmGet m (wk_key pfx i) with
    | none => rw [hg] at h; cases h
    | some v =>
      rw [hg] at h
      have := ih _ (fun j hj => hkeys j (List.mem_cons_of_mem _ hj)) h
      rw [this, fmGet_erase_ne _ _ _ (hkeys i (List.mem_cons_self _ _))]
      by_cases ht : truthy v
      · rw [if_pos ht, wk_append_get_ne _ _ _ _ hk]
      · rw [if_neg ht]

/-- A successful run of `weekdays_to_list`'s loop keeps the list key
present. -/
theorem weekdays_go_contains_pfx (pfx : String) (L : List Nat) (m m' : FMap)
    (hL : ∀ j ∈ L, j ∈ [1, 2, 3, 4, 5])
    (h : weekdays_go pfx L m = some m') (hc : fmContains m pfx = true) :
    fmContains m' pfx = true := by
  induction L generalizing m with
  | nil =>
    rw [weekdays_go] at h
    cases h
    exact hc
  | cons i t ih =>
    rw [weekdays_go] at h
    cases hg : fmGet m (wk_key pfx i) with
    | none => rw [hg] at h; cases h
    | some v =>
      rw [hg] at h
      apply ih _ (fun j hj => hL j (List.mem_cons_of_mem _ hj)) h
      rw [fmContains,
        fmGet_erase_ne _ _ _ (fun he => (wk_key_ne_pfx pfx i (hL i (List.mem_cons_self _ _))) he.symm)]
      by_cases ht : truthy v
      · rw [if_pos ht, wk_append]
        cases hfp : fmGet m pfx with
        | none => rw [fmContains, hfp] at hc; simp at hc
        | some v' =>
          cases v' with
          | listN l =>
            show (fmGet (fmSet m pfx (Value.listN (l ++ [i]))) pfx).isSome = true
            rw [fmGet_set_self]
            rfl
          | str s => rw [fmContains] at hc; exact hc
          | bool b => rw [fmContains] at hc; exact hc
          | listS l => rw [fmContains] at hc; exact hc
      · rw [if_neg ht]
        rw [fmContains] at hc
        exact hc

/-- Full characterisation of a run of `days_to_list`'s loop when every
listed flag is present: the run succeeds, the selected days are appended
to the list in listed order, the flags are deleted, and every other key
is untouched. -/
theorem days_go_spec (L : List String) (m : FMap) (pre : List String)
    (hpres : ∀ d ∈ L, fmContains m (day_key d) = true)
    (hcd : fmGet m "collection_days" = some (Value.listS pre))
    (hnd : (L.map day_key).Nodup) :
    ∃ m', days_go L m = some m'
      ∧ fmGet m' "collection_days" =
          some (Value.listS (pre ++
            L.filter (fun d => truthy ((fmGet m (day_key d)).getD (Value.bool false)))))
      ∧ (∀ d ∈ L, fmGet m' (day_key d) = none)
      ∧ (∀ k, (∀ d ∈ L, k ≠ day_key d) → k ≠ "collection_days" → fmGet m' k = fmGet m k) := by
  induction L generalizing m pre with
  | nil =>
    refine ⟨m, rfl, by simpa using hcd, ?_, ?_⟩
    · intro d hd; cases hd
    · intro k _ _; rfl
  | cons h t ih =>
    have hchead := hpres h (List.mem_cons_self _ _)
    rw [fmContains] at hchead
    obtain ⟨v, hg⟩ := Option.isSome_iff_exists.mp hchead
    have hne_cd : day_key h ≠ "collection_days" := day_key_ne_cd h
    have hnd2 : day_key h ∉ t.map day_key ∧ (t.map day_key).Nodup := by
      rw [List.map_cons, List.nodup_cons] at hnd
      exact hnd
    have hneq : ∀ d ∈ t, day_key d ≠ day_key h := by
      intro d hd he
      exact hnd2.1 (he ▸ List.mem_map_of_mem day_key hd)
    have hm2get : ∀ k, k ≠ day_key h → k ≠ "collection_days" →
        fmGet (fmErase (if truthy v then days_append h m else m) (day_key h)) k = fmGet m k := by
      intro k hk1 hk2
      rw [fmGet_erase_ne _ _ _ hk1]
      by_cases htv : truthy v
      · rw [if_pos htv, days_append_get_ne _ _ _ hk2]
      · rw [if_neg htv]
    have hm2cd : fmGet (fmErase (if truthy v then days_append h m else m) (day_key h))
        "collection_days" = some (Value.listS (pre ++ if truthy v then [h] else [])) := by
      rw [fmGet_erase_ne _ _ _ (fun he => hne_cd he.symm)]
      by_cases htv : truthy v
      · rw [if_pos htv, if_pos htv, days_append, hcd, fmGet_set_self]
      · rw [if_neg htv, if_neg htv, hcd]
        simp
    have hpres2 : ∀ d ∈ t, fmContains (fmErase (if truthy v then days_append h m else m)
        (day_key h)) (day_key d) = true := by
      intro d hd
      rw [fmContains, hm2get _ (hneq d hd) (day_key_ne_cd d)]
      exact hpres d (List.mem_cons_of_mem _ hd)
    obtain ⟨m', hrun, hlist, hflags, hpreserve⟩ :=
      ih _ (pre ++ if truthy v then [h] else []) hpres2 hm2cd hnd2.2
    refine ⟨m', ?_, ?_, ?_, ?_⟩
    · rw [days_go, hg]
      exact hrun
    · rw [hlist]
      have hfc : t.filter (fun d => truthy ((fmGet (fmErase
            (if truthy v then days_append h m else m) (day_key h)) (day_key d)).getD
            (Value.bool false))) =
          t.filter (fun d => truthy ((fmGet m (day_key d)).getD (Value.bool false))) := by
        apply List.filter_congr
        intro d hd
        rw [hm2get _ (hneq d hd) (day_key_ne_cd d)]
      rw [hfc, List.filter_cons]
      by_cases htv : truthy v
      · simp [htv, hg, List.append_assoc]
      · simp [htv, hg]
    · intro d hd
      rcases List.mem_cons.mp hd with rfl | hdt
      · rw [hpreserve (day_key d) (fun d' hd' => (hneq d' hd').symm) (day_key_ne_cd d)]
        exact fmGet_erase_self _ _
      · exact hflags d hdt
    · intro k hk1 hk2
      rw [hpreserve k (fun d hd => hk1 d (List.mem_cons_of_mem _ hd)) hk2,
          hm2get k (hk1 h (List.mem_cons_self _ _)) hk2]

/-- The step-3 re-display tail only rewrites the display schema. -/
theorem step3_tail_data (st : FlowState) (fv : Value) (ui d : Option FMap) :
    (step3_tail st fv ui d)._data = st._data ∧ (step3_tail st fv ui d).name = st.name := by
  simp only [step3_tail]
  split <;> exact ⟨rfl, rfl⟩

/-- The step-4 re-display tail only rewrites the display schema. -/
theorem step4_tail_data (st : FlowState) (fv : Value) (s' : FlowState)
    (h : step4_tail st fv = some s') : s'._data = st._data ∧ s'.name = st.name := by
  simp only [step4_tail] at h
  split at h
  · split at h
    · exact Option.noConfusion h
    · simp only [Option.some.injEq] at h
      subst h
      exact ⟨rfl, rfl⟩
  · simp only [Option.some.injEq] at h
    subst h
    exact ⟨rfl, rfl⟩

/-- A step-1 call that does not advance leaves the record and the stored
name untouched. -/
theorem step1_false_state (st : FlowState) (ui d : Option FMap) (st' : FlowState)
    (h : step1_user_init st ui d = some (false, st')) :
    st'._data = st._data ∧ st'.name = st.name := by
  cases ui with
  | none =>
    cases d with
    | none =>
      simp only [step1_user_init, Option.some.injEq, Prod.mk.injEq] at h
      rw [← h.2]
      exact ⟨rfl, rfl⟩
    | some dd =>
      simp only [step1_user_init, Option.some.injEq, Prod.mk.injEq] at h
      rw [← h.2]
      exact ⟨rfl, rfl⟩
  | some u =>
    simp only [step1_user_init] at h
    split at h
    · exact Option.noConfusion h
    · split at h
      · exact Option.noConfusion h
      · split at h
        · simp only [Option.some.injEq, Prod.mk.injEq] at h
          rw [← h.2]
          exact ⟨rfl, rfl⟩
        · simp only [Option.some.injEq, Prod.mk.injEq] at h
          exact absurd h.1 (by decide)

/-- The step-2 re-display branch only rewrites store and display schema. -/
theorem step2_form_data (st : FlowState) (fv : Value) (d : Option FMap) :
    (step2_form st fv d)._data = st._data ∧ (step2_form st fv d).name = st.name := by
  simp only [step2_form]
  cases d <;> exact ⟨rfl, rfl⟩

/-- A step-2 call that does not advance leaves the record and the stored
name untouched. -/
theorem step2_false_state (st : FlowState) (ui d : Option FMap) (st' : FlowState)
    (h : step2_annual_group st ui d = some (false, st')) :
    st'._data = st._data ∧ st'.name = st.name := by
  simp only [step2_annual_group] at h
  split at h
  · exact Option.noConfusion h
  · split at h
    · split at h
      · split at h
        · simp only [Option.some.injEq, Prod.mk.injEq] at h
          rw [← h.2]
          exact ⟨rfl, rfl⟩
        · split at h
          · split at h
            · exact Option.noConfusion h
            · split at h
              · exact Option.noConfusion h
              · simp only [Option.some.injEq, Prod.mk.injEq] at h
                exact absurd h.1 (by decide)
          · simp only [Option.some.injEq, Prod.mk.injEq] at h
            exact absurd h.1 (by decide)
      · simp only [Option.some.injEq, Prod.mk.injEq] at h
        rw [← h.2]
        exact ⟨(step2_form_data _ _ _).1, (step2_form_data _ _ _).2⟩
    · simp only [Option.some.injEq, Prod.mk.injEq] at h
      rw [← h.2]
      exact ⟨(step2_form_data _ _ _).1, (step2_form_data _ _ _).2⟩

/-- A step-3 call that does not advance leaves the record and the stored
name untouched. -/
theorem step3_false_state (st : FlowState) (ui d : Option FMap) (st' : FlowState)
    (h : step3_detail st ui d = some (false, st')) :
    st'._data = st._data ∧ st'.name = st.name := by
  simp only [step3_detail] at h
  iterate 9 (all_goals (try split at h))
  all_goals (try exact Option.noConfusion h)
  all_goals simp only [Option.some.injEq, Prod.mk.injEq] at h
  all_goals (try (exact absurd h.1 (by decide)))
  all_goals rw [← h.2]
  all_goals exact ⟨(step3_tail_data _ _ _ _).1, (step3_tail_data _ _ _ _).2⟩

/-- A step-4 call that does not advance leaves the record and the stored
name untouched. -/
theorem step4_false_state (st : FlowState) (ui d : Option FMap) (st' : FlowState)
    (h : step4_final st ui d = some (false, st')) :
    st'._data = st._data ∧ st'.name = st.name := by
  simp only [step4_final] at h
  split at h
  · exact Option.noConfusion h
  · split at h
    · split at h
      · rw [Option.bind_eq_some] at h
        obtain ⟨u0, hA, h⟩ := h
        rw [Option.bind_eq_some] at h
        obtain ⟨u1, hB, h⟩ := h
        rw [Option.bind_eq_some] at h
        obtain ⟨errs, hC, h⟩ := h
        cases errs with
        | none =>
          simp only [Option.some.injEq, Prod.mk.injEq] at h
          exact absurd h.1 (by decide)
        | some e =>
          rw [Option.map_eq_some'] at h
          obtain ⟨s, hs, heq⟩ := h
          simp only [Prod.mk.injEq] at heq
          rw [← heq.2]
          exact ⟨(step4_tail_data _ _ _ hs).1, (step4_tail_data _ _ _ hs).2⟩
      · rw [Option.map_eq_some'] at h
        obtain ⟨s, hs, heq⟩ := h
        simp only [Prod.mk.injEq] at heq
        rw [← heq.2]
        cases d with
        | none => exact ⟨(step4_tail_data _ _ _ hs).1, (step4_tail_data _ _ _ hs).2⟩
        | some dd => exact ⟨(step4_tail_data _ _ _ hs).1, (step4_tail_data _ _ _ hs).2⟩
    · rw [Option.map_eq_some'] at h
      obtain ⟨s, hs, heq⟩ := h
      simp only [Prod.mk.injEq] at heq
      rw [← heq.2]
      cases d with
      | none => exact ⟨(step4_tail_data _ _ _ hs).1, (step4_tail_data _ _ _ hs).2⟩
      | some dd => exact ⟨(step4_tail_data _ _ _ hs).1, (step4_tail_data _ _ _ hs).2⟩

/-- C7 counterexample: the claim asserts `is_month_day "02/29"` is true
("ignoring the year"), but `datetime.strptime` fills in the default year
1900, which is not a leap year, so the code rejects February 29. -/
theorem C7_feb29_counterexample : is_month_day "02/29" = false := by decide

/-- C7 (amended): `is_month_day` accepts exactly the strings that parse as
a month/day in "MM/DD" with `strptime`'s default year 1900 — so
`is_month_day "02/29"` is false (1900 is not a leap year) while
`is_month_day "12/25"` and `is_month_day "3/7"` are true and
`is_month_day "13/01"` is false — and `is_date` accepts `""` and rejects
the invalid calendar date `"2024-02-30"`. -/
theorem C7_date_validators :
    is_month_day "02/29" = false ∧ is_month_day "12/25" = true ∧
    is_month_day "13/01" = false ∧ is_month_day "3/7" = true ∧
    is_date "" = true ∧ is_date "2024-02-30" = false ∧ is_date "2024-02-29" = true := by
  decide

/-- C9: `string_to_list` is idempotent — a value that is already a list
passes through unchanged, so applying it twice equals applying it once on
every input — and `string_to_list "a, 'b', c"` is `["a", "b", "c"]`
(tokens trimmed of surrounding quotes and whitespace). -/
theorem C9_string_to_list_idempotent :
    (∀ v : Value, (string_to_list v).bind string_to_list = string_to_list v) ∧
    string_to_list (Value.str "a, 'b', c") = some (Value.listS ["a", "b", "c"]) := by
  refine ⟨?_, by decide⟩
  intro v
  cases v <;> rfl

/-- C10: `days_to_list` and `weekdays_to_list` are partial at the public
interface — when the list key is absent and any expected flag key
(`collection_days_<weekday>`, or `<prefix>_1`…`<prefix>_5`) is missing
from the field map, the function raises `KeyError` (modelled as `none`)
instead of returning. -/
theorem C10_flag_key_errors :
    (∀ (m : FMap) (d : String), fmContains m "collection_days" = false → d ∈ WEEKDAYS →
      fmContains m (day_key d) = false → days_to_list m = none) ∧
    (∀ (m : FMap) (pfx : String) (i : Nat), fmContains m pfx = false → i ∈ [1, 2, 3, 4, 5] →
      fmContains m (wk_key pfx i) = false → weekdays_to_list m pfx = none) := by
  constructor
  · intro m d hcd hdW hflag
    rw [days_to_list, if_neg (by rw [hcd]; decide)]
    refine days_go_missing WEEKDAYS _ d hdW ?_
    rw [fmGet_set_ne _ _ _ _ (day_key_ne_cd d)]
    exact fmGet_eq_none_of_not_contains _ _ hflag
  · intro m pfx i hp hiL hflag
    rw [weekdays_to_list, if_neg (by rw [hp]; decide)]
    refine weekdays_go_missing pfx [1, 2, 3, 4, 5] _ i (fun j hj => hj) hiL ?_
    rw [fmGet_set_ne _ _ _ _ (wk_key_ne_pfx pfx i hiL)]
    exact fmGet_eq_none_of_not_contains _ _ hflag

/-- C10 witness: concrete `KeyError` runs — a map holding only the Monday
flag (Tuesday missing), and an empty map with a missing ordinal flag. -/
theorem C10_flag_key_errors_witness :
    days_to_list [("collection_days_mon", Value.bool true)] = none ∧
    weekdays_to_list [] "week_order_number" = none :=
  ⟨C10_flag_key_errors.1 _ "Tue" (by decide) (by decide) (by decide),
   C10_flag_key_errors.2 _ "week_order_number" 1 (by decide) (by decide) (by decide)⟩

/-- C8 counterexample: the claim describes a field map containing exactly
five per-weekday flags, but the code loops over seven weekdays — on a map
holding only the Monday–Friday flags, `days_to_list` raises `KeyError`
(modelled `none`) at the missing Saturday flag instead of producing a
list. -/
theorem C8_five_flags_counterexample : days_to_list fiveFlagInput = none := by decide

/-- C8 (amended): for every field map in which the list key is absent and
all seven per-weekday boolean flags are present, `days_to_list` produces
the list of weekdays whose flag is true in fixed weekday order, removes
all seven flag keys, and leaves every other field unchanged; it is a no-op
when the list field is already present; and composing it with
`list_to_days` round-trips the selection {Mon, Wed} to `["Mon", "Wed"]`. -/
theorem C8_days_roundtrip :
    (∀ m : FMap, fmContains m "collection_days" = false →
      (∀ d ∈ WEEKDAYS, fmContains m (day_key d) = true) →
      ∃ m', days_to_list m = some m'
        ∧ fmGet m' "collection_days" = some (Value.listS
            (WEEKDAYS.filter (fun d => truthy ((fmGet m (day_key d)).getD (Value.bool false)))))
        ∧ (∀ d ∈ WEEKDAYS, fmContains m' (day_key d) = false)
        ∧ (∀ k, (∀ d ∈ WEEKDAYS, k ≠ day_key d) → k ≠ "collection_days" →
            fmGet m' k = fmGet m k)) ∧
    (∀ m : FMap, fmContains m "collection_days" = true → days_to_list m = some m) ∧
    days_to_list (list_to_days [] [("collection_days", Value.listS ["Mon", "Wed"])]) =
      some [("collection_days", Value.listS ["Mon", "Wed"])] := by
  refine ⟨?_, ?_, by decide⟩
  · intro m hcd hflags
    rw [days_to_list, if_neg (by rw [hcd]; decide)]
    obtain ⟨m', hrun, hlist, hfl, hpres⟩ :=
      days_go_spec WEEKDAYS (fmSet m "collection_days" (Value.listS [])) []
        (fun d hd => by
          rw [fmContains, fmGet_set_ne _ _ _ _ (day_key_ne_cd d)]
          exact hflags d hd)
        (fmGet_set_self _ _ _) (by decide)
    refine ⟨m', hrun, ?_, ?_, ?_⟩
    · rw [hlist]
      have hfc : WEEKDAYS.filter (fun d => truthy ((fmGet (fmSet m "collection_days"
            (Value.listS [])) (day_key d)).getD (Value.bool false))) =
          WEEKDAYS.filter (fun d => truthy ((fmGet m (day_key d)).getD (Value.bool false))) :=
        List.filter_congr (fun d hd => by rw [fmGet_set_ne _ _ _ _ (day_key_ne_cd d)])
      rw [List.nil_append, hfc]
    · intro d hd
      rw [fmContains, hfl d hd]
      rfl
    · intro k hk1 hk2
      rw [hpres k hk1 hk2, fmGet_set_ne _ _ _ _ hk2]
  · intro m h
    rw [days_to_list, if_pos h]

/-- C8 witness: the no-op part of the round-trip applied to a record that
already carries the collection-days list. -/
theorem C8_days_roundtrip_witness :
    days_to_list [("collection_days", Value.listS ["Mon", "Wed"])] =
      some [("collection_days", Value.listS ["Mon", "Wed"])] :=
  C8_days_roundtrip.2.1 _ (by decide)

/-- C4: for every step operation and every user input, a call that
reports "not advanced" leaves the configuration record (and the stored
name) exactly as it was — a step either merges all of its validated
fields or merges nothing. -/
theorem C4_no_partial_commit (st : FlowState) (ui d : Option FMap) (st' : FlowState) :
    (step1_user_init st ui d = some (false, st') →
      st'._data = st._data ∧ st'.name = st.name) ∧
    (step2_annual_group st ui d = some (false, st') →
      st'._data = st._data ∧ st'.name = st.name) ∧
    (step3_detail st ui d = some (false, st') →
      st'._data = st._data ∧ st'.name = st.name) ∧
    (step4_final st ui d = some (false, st') →
      st'._data = st._data ∧ st'.name = st.name) :=
  ⟨step1_false_state st ui d st', step2_false_state st ui d st',
   step3_false_state st ui d st', step4_false_state st ui d st'⟩

/-- C4 witness: a concrete failing step-1 call (empty submission, missing
required name) leaves the fresh session's record and name unchanged. -/
theorem C4_no_partial_commit_witness :
    emptyStep1FailState._data = (initState "u")._data ∧
    emptyStep1FailState.name = (initState "u").name :=
  (C4_no_partial_commit (initState "u") (some []) none emptyStep1FailState).1 (by decide)

/-- C3: after a successful step 1 the handler's next step is determined
solely by the chosen frequency category — the route is a function of the
stored frequency alone, annual/group categories go to the annual-group
step, daily/blank categories go straight to the final step, and every
other category goes to the day-of-week detail step. -/
theorem C3_route_after_step1 (st : FlowState) (ui d : Option FMap) (b : Bool)
    (st' : FlowState) (h : step1_user_init st ui d = some (b, st')) (hb : b = true) :
    async_step_user_route st ui d = some (route_after_step1 (frequencyProp st')) ∧
    (∀ v : Value, freqIn v ANNUAL_GROUP_FREQUENCY = true →
      route_after_step1 (some v) = StepId.annual_group) ∧
    (∀ v : Value, freqIn v DAILY_BLANK_FREQUENCY = true →
      route_after_step1 (some v) = StepId.final) ∧
    (∀ v : Value, freqIn v ANNUAL_GROUP_FREQUENCY = false →
      freqIn v DAILY_BLANK_FREQUENCY = false →
      route_after_step1 (some v) = StepId.detail) ∧
    route_after_step1 none = StepId.detail := by
  subst hb
  refine ⟨?_, ?_, ?_, ?_, rfl⟩
  · rw [async_step_user_route, h]
    rfl
  · intro v hv
    rw [route_after_step1, if_pos hv]
  · intro v hv
    have hag : freqIn v ANNUAL_GROUP_FREQUENCY = false := by
      cases v with
      | str s =>
        simp only [freqIn, DAILY_BLANK_FREQUENCY] at hv
        have : s = "every-n-days" ∨ s = "blank" := by
          simpa using hv
        rcases this with rfl | rfl <;> decide
      | bool b0 => rfl
      | listS l => rfl
      | listN l => rfl
    rw [route_after_step1, if_neg (by rw [hag]; decide), if_pos hv]
  · intro v h1 h2
    rw [route_after_step1, if_neg (by rw [h1]; decide), if_neg (by rw [h2]; decide)]

/-- C3 witness: a concrete annual session — step 1 succeeds and the
handler routes to the annual-group step. -/
theorem C3_route_after_step1_witness :
    async_step_user_route (initState "u") (some annualStep1Input) none =
      some (route_after_step1 (frequencyProp annualStep1State)) ∧
    route_after_step1 (some (Value.str "annual")) = StepId.annual_group := by
  have h := C3_route_after_step1 (initState "u") (some annualStep1Input) none true
    annualStep1State (by decide) rfl
  exact ⟨h.1, h.2.1 _ (by decide)⟩

/-- C6 counterexample: called with the empty dict and a non-None defaults
argument, step 1 does not populate the default storage from the defaults
(the storage stays empty while the defaults carry a frequency) and it
does attempt validation (classifying the catch-all error kind) — the
`user_input is not None` test treats `{}` as real input. -/
theorem C6_step1_empty_dict_counterexample :
    step1_user_init (initState "u") (some []) (some editDefaults) =
      some (false, emptyEditStep1FailState) ∧
    fmContains emptyEditStep1FailState.store "frequency" = false ∧
    fmContains editDefaults "frequency" = true ∧
    emptyEditStep1FailState.errors = some "value" := by decide

/-- C6 (amended): for steps 2–4, a call with empty or absent user input
and a defaults argument populates the process-wide default storage from
the defaults and returns "not advanced" with a freshly compiled display
schema, without validating; step 1 behaves this way only for absent
(`None`) input — it resets the storage, copies the defaults in, joins the
date lists back to text and recompiles the schema without the name
field. -/
theorem C6_defaults_population (st : FlowState) (d : FMap) (ui : Option FMap)
    (fv : Value) (hin : ui = none ∨ ui = some [])
    (hf : fmGet st._data "frequency" = some fv) :
    (step1_user_init st none (some d) =
      some (false,
        { st with
            errors := none,
            store := join_list (join_list (set_defaults [] 1 d) "exclude_dates") "include_dates",
            data_schema := stripNameSchema (some d) (compile_config_flow 1 none
              (join_list (join_list (set_defaults [] 1 d) "exclude_dates") "include_dates")) })) ∧
    (step2_annual_group st ui (some d) =
      some (false,
        { st with
            errors := none,
            store := set_defaults st.store 2 d,
            data_schema := compile_config_flow 2 (some fv) (set_defaults st.store 2 d) })) ∧
    (step3_detail st ui (some d) =
      some (false,
        step3_tail
          { st with
              errors := none,
              data_schema := [],
              store := set_defaults st.store 3 d } fv ui (some d))) ∧
    (step4_final st ui (some d) =
      (step4_tail
        { st with
            errors := none,
            data_schema := [],
            store := join_list (set_defaults st.store 4 d) "holiday_pop_named" } fv).map
        (fun s => (false, s))) := by
  refine ⟨rfl, ?_, ?_, ?_⟩
  · rcases hin with rfl | rfl <;> (simp only [step2_annual_group, step2_form]; rw [hf]) <;>
      try rfl
  · rcases hin with rfl | rfl <;> (simp only [step3_detail]; rw [hf]) <;> try rfl
  · rcases hin with rfl | rfl <;> (simp only [step4_final]; rw [hf]) <;> try rfl

/-- C6 witness: a concrete edit session — step 2 called with absent input
and stored configuration as defaults populates the default storage from
it and re-displays. -/
theorem C6_defaults_population_witness :
    step2_annual_group annualStep1State none (some editDefaults) =
      some (false,
        { annualStep1State with
            errors := none,
            store := set_defaults annualStep1State.store 2 editDefaults,
            data_schema := compile_config_flow 2 (some (Value.str "annual"))
              (set_defaults annualStep1State.store 2 editDefaults) }) :=
  (C6_defaults_population annualStep1State editDefaults none (Value.str "annual")
    (Or.inl rfl) (by decide)).2.1

/-- The position-preserving assignment stores the new value under the
key. -/
theorem fmGet_update_self (m : FMap) (k : String) (v : Value) :
    fmGet (fmUpdate m k v) k = some v := by
  induction m with
  | nil => simp [fmUpdate, fmGet]
  | cons p rest ih =>
    rw [fmUpdate]
    split
    · rw [fmGet, if_pos rfl]
    · rename_i hpk
      rw [fmGet, if_neg hpk]
      exact ih

/-- The position-preserving assignment leaves other keys unchanged. -/
theorem fmGet_update_ne (m : FMap) (k k2 : String) (v : Value) (h : k2 ≠ k) :
    fmGet (fmUpdate m k v) k2 = fmGet m k2 := by
  induction m with
  | nil =>
    rw [fmUpdate, fmGet, fmGet, if_neg (fun hk => h hk.symm)]
    rfl
  | cons p rest ih =>
    rw [fmUpdate]
    split
    · rename_i hpk
      rw [fmGet, fmGet, hpk, if_neg (fun hk => h hk.symm), if_neg (fun hk => h hk.symm)]
    · rw [fmGet, fmGet]
      by_cases hp : p.1 = k2
      · rw [if_pos hp, if_pos hp]
      · rw [if_neg hp, if_neg hp]
        exact ih

/-- Every pair of the updated map is the new pair or a pair of the
original map. -/
theorem fmUpdate_mem (m : FMap) (k : String) (v : Value) (p : String × Value)
    (h : p ∈ fmUpdate m k v) : p = (k, v) ∨ p ∈ m := by
  induction m with
  | nil =>
    rw [fmUpdate] at h
    exact Or.inl (List.mem_singleton.mp h)
  | cons q rest ih =>
    rw [fmUpdate] at h
    split at h
    · rcases List.mem_cons.mp h with rfl | hm
      · exact Or.inl rfl
      · exact Or.inr (List.mem_cons_of_mem _ hm)
    · rcases List.mem_cons.mp h with rfl | hm
      · exact Or.inr (List.mem_cons_self _ _)
      · rcases ih hm with h1 | h2
        · exact Or.inl h1
        · exact Or.inr (List.mem_cons_of_mem _ h2)

/-- A submission all of whose pairs validate raises no value error. -/
theorem firstFault_none (l : FMap) (h : ∀ p ∈ l, pairOk p = true) :
    firstFault l = none := by
  induction l with
  | nil => rfl
  | cons p rest ih =>
    rw [firstFault, if_pos (h p (List.mem_cons_self _ _))]
    exact ih (fun q hq => h q (List.mem_cons_of_mem _ hq))

/-- When exactly one submitted field fails its validator (every pair with
another key passes), the reported error names that field, wherever it sits
in insertion order. -/
theorem firstFault_single (l : FMap) (kb : String) (vb : Value) (pb : Value → Bool)
    (hk : fieldValidator kb = some pb) (hbad : pb vb = false)
    (hget : fmGet l kb = some vb)
    (hothers : ∀ p ∈ l, p.1 ≠ kb → pairOk p = true) :
    firstFault l = some kb := by
  induction l with
  | nil => exact Option.noConfusion hget
  | cons p rest ih =>
    by_cases hp : p.1 = kb
    · rw [fmGet, if_pos hp] at hget
      have hv : p.2 = vb := Option.some.inj hget
      have hpo : pairOk p = false := by
        simp only [pairOk, hp, hk, hv]
        exact hbad
      have hnpo : ¬ (pairOk p = true) := by
        rw [hpo]
        decide
      rw [firstFault, if_neg hnpo, hp]
    · rw [fmGet, if_neg hp] at hget
      rw [firstFault, if_pos (hothers p (List.mem_cons_self _ _) hp)]
      exact ih hget (fun q hq hqk => hothers q (List.mem_cons_of_mem _ hq) hqk)

/-- C5 counterexample: the same two-fault submission — malformed
include-dates list and malformed icon — is classified as kind "date" when
the date field comes first in the submission and as kind "icon" when the
icon field comes first: the reported kind follows the first voluptuous
error in insertion order, so the claim's per-fault clauses ("malformed
icon fields yield kind icon", date lists yield "date") each fail on one
of the two orderings. -/
theorem C5_multi_fault_counterexample :
    fmGet multiFaultInput "include_dates" = some (Value.str "2024-13-01") ∧
    is_dates (stl "2024-13-01") = false ∧
    icon_ok (Value.str "noColon") = false ∧
    (step1_user_init (initState "u") (some multiFaultInput) none).map
      (fun r => (r.1, r.2.errors)) = some (false, some "date") ∧
    (step1_user_init (initState "u") (some iconBeforeDateInput) none).map
      (fun r => (r.1, r.2.errors)) = some (false, some "icon") := by decide

/-- C5 (amended): when step-1 validation fails, the single classified kind
follows the first voluptuous error — present fields are checked in the
submission's insertion order and required-missing errors come last — so a
submission whose only failing field is a date list is rejected as kind
"date" (with the rejected input stored as new defaults and the display
schema recompiled), a sole malformed icon yields "icon", a sole malformed
expiry duration yields "time", and a missing or invalid frequency with
every present field valid yields "value". -/
theorem C5_step1_error_classification :
    (∀ (st : FlowState) (ui : FMap) (s : String),
      fmGet ui "include_dates" = some (Value.str s) → is_dates (stl s) = false →
      fmContains ui "exclude_dates" = false →
      (∀ p ∈ ui, p.1 ≠ "include_dates" → pairOk p = true) →
      step1_user_init st (some ui) none =
        some (false,
          { st with
              errors := some "date",
              store := set_defaults st.store 1
                (fmUpdate ui "include_dates" (Value.listS (stl s))),
              data_schema := stripNameSchema none (compile_config_flow 1 none
                (set_defaults st.store 1
                  (fmUpdate ui "include_dates" (Value.listS (stl s))))) })) ∧
    (∀ (st : FlowState) (ui : FMap) (v : Value),
      fmContains ui "include_dates" = false → fmContains ui "exclude_dates" = false →
      fmGet ui "icon_normal" = some v → icon_ok v = false →
      (∀ p ∈ ui, p.1 ≠ "icon_normal" → pairOk p = true) →
      (step1_user_init st (some ui) none).map (fun r => (r.1, r.2.errors)) =
        some (false, some "icon")) ∧
    (∀ (st : FlowState) (ui : FMap) (v : Value),
      fmContains ui "include_dates" = false → fmContains ui "exclude_dates" = false →
      fmGet ui "expire_after" = some v → expire_ok v = false →
      (∀ p ∈ ui, p.1 ≠ "expire_after" → pairOk p = true) →
      (step1_user_init st (some ui) none).map (fun r => (r.1, r.2.errors)) =
        some (false, some "time")) ∧
    (∀ (st : FlowState) (ui : FMap),
      fmContains ui "include_dates" = false → fmContains ui "exclude_dates" = false →
      fmContains ui "frequency" = false →
      (∀ p ∈ ui, pairOk p = true) →
      (step1_user_init st (some ui) none).map (fun r => (r.1, r.2.errors)) =
        some (false, some "value")) ∧
    (∀ (st : FlowState) (ui : FMap) (v : Value),
      fmContains ui "include_dates" = false → fmContains ui "exclude_dates" = false →
      fmGet ui "frequency" = some v → freq_ok v = false →
      (∀ p ∈ ui, p.1 ≠ "frequency" → pairOk p = true) →
      (step1_user_init st (some ui) none).map (fun r => (r.1, r.2.errors)) =
        some (false, some "value")) := by
  refine ⟨?_, ?_, ?_, ?_, ?_⟩
  · intro st ui s hinc hbad hexc hothers
    have hconv1 : convertField ui "include_dates" =
        some (fmUpdate ui "include_dates" (Value.listS (stl s))) := by
      rw [convertField, hinc]
      rfl
    have hexc2 : fmGet (fmUpdate ui "include_dates" (Value.listS (stl s)))
        "exclude_dates" = none := by
      rw [fmGet_update_ne _ _ _ _ (by decide)]
      exact fmGet_eq_none_of_not_contains _ _ hexc
    have hconv2 : convertField (fmUpdate ui "include_dates" (Value.listS (stl s)))
        "exclude_dates" = some (fmUpdate ui "include_dates" (Value.listS (stl s))) := by
      rw [convertField, hexc2]
    have hff : firstFault (fmUpdate ui "include_dates" (Value.listS (stl s))) =
        some "include_dates" := by
      refine firstFault_single _ _ (Value.listS (stl s)) dates_field_ok rfl hbad
        (fmGet_update_self _ _ _) ?_
      intro p hp hpk
      rcases fmUpdate_mem _ _ _ _ hp with rfl | hm
      · exact absurd rfl hpk
      · exact hothers p hm hpk
    have hval : validateStep1 (fmUpdate ui "include_dates" (Value.listS (stl s)))
        (Option.isNone (none : Option FMap)) = Except.error "include_dates" := by
      rw [validateStep1, hff]
    simp only [step1_user_init, hconv1, hconv2, hval]
    rfl
  · intro st ui v hincA hexcA hicon hbad hothers
    have hconv1 : convertField ui "include_dates" = some ui := by
      rw [convertField, fmGet_eq_none_of_not_contains _ _ hincA]
    have hconv2 : convertField ui "exclude_dates" = some ui := by
      rw [convertField, fmGet_eq_none_of_not_contains _ _ hexcA]
    have hff : firstFault ui = some "icon_normal" :=
      firstFault_single _ _ v icon_ok rfl hbad hicon hothers
    have hval : validateStep1 ui (Option.isNone (none : Option FMap)) =
        Except.error "icon_normal" := by
      rw [validateStep1, hff]
    simp only [step1_user_init, hconv1, hconv2, hval]
    rfl
  · intro st ui v hincA hexcA hexp hbad hothers
    have hconv1 : convertField ui "include_dates" = some ui := by
      rw [convertField, fmGet_eq_none_of_not_contains _ _ hincA]
    have hconv2 : convertField ui "exclude_dates" = some ui := by
      rw [convertField, fmGet_eq_none_of_not_contains _ _ hexcA]
    have hff : firstFault ui = some "expire_after" :=
      firstFault_single _ _ v expire_ok rfl hbad hexp hothers
    have hval : validateStep1 ui (Option.isNone (none : Option FMap)) =
        Except.error "expire_after" := by
      rw [validateStep1, hff]
    simp only [step1_user_init, hconv1, hconv2, hval]
    rfl
  · intro st ui hincA hexcA hfreqA hall
    have hconv1 : convertField ui "include_dates" = some ui := by
      rw [convertField, fmGet_eq_none_of_not_contains _ _ hincA]
    have hconv2 : convertField ui "exclude_dates" = some ui := by
      rw [convertField, fmGet_eq_none_of_not_contains _ _ hexcA]
    have hff : firstFault ui = none := firstFault_none ui hall
    by_cases hn : fmContains ui "name" = true
    · have hrm : requiredMissing ui (Option.isNone (none : Option FMap)) =
          some "frequency" := by
        rw [requiredMissing, if_neg (fun hc => hc.2 hn),
            if_pos (by rw [hfreqA]; decide)]
      have hval : validateStep1 ui (Option.isNone (none : Option FMap)) =
          Except.error "frequency" := by
        rw [validateStep1, hff, hrm]
      simp only [step1_user_init, hconv1, hconv2, hval]
      rfl
    · have hrm : requiredMissing ui (Option.isNone (none : Option FMap)) =
          some "name" := by
        rw [requiredMissing, if_pos ⟨rfl, hn⟩]
      have hval : validateStep1 ui (Option.isNone (none : Option FMap)) =
          Except.error "name" := by
        rw [validateStep1, hff, hrm]
      simp only [step1_user_init, hconv1, hconv2, hval]
      rfl
  · intro st ui v hincA hexcA hfg hbad hothers
    have hconv1 : convertField ui "include_dates" = some ui := by
      rw [convertField, fmGet_eq_none_of_not_contains _ _ hincA]
    have hconv2 : convertField ui "exclude_dates" = some ui := by
      rw [convertField, fmGet_eq_none_of_not_contains _ _ hexcA]
    have hff : firstFault ui = some "frequency" :=
      firstFault_single _ _ v freq_ok rfl hbad hfg hothers
    have hval : validateStep1 ui (Option.isNone (none : Option FMap)) =
        Except.error "frequency" := by
      rw [validateStep1, hff]
    simp only [step1_user_init, hconv1, hconv2, hval]
    rfl

/-- C5 witness: a submission whose only fault is a malformed icon is
rejected with kind "icon", and an otherwise-valid submission missing the
required frequency is rejected with the catch-all kind "value". -/
theorem C5_step1_error_classification_witness :
    (step1_user_init (initState "u") (some iconOnlyFaultInput) none).map
      (fun r => (r.1, r.2.errors)) = some (false, some "icon") ∧
    (step1_user_init (initState "u") (some [("name", Value.str "x")]) none).map
      (fun r => (r.1, r.2.errors)) = some (false, some "value") :=
  ⟨C5_step1_error_classification.2.1 (initState "u") iconOnlyFaultInput
      (Value.str "noColon") (by decide) (by decide) (by decide) (by decide) (by decide),
   C5_step1_error_classification.2.2.2.1 (initState "u") [("name", Value.str "x")]
      (by decide) (by decide) (by decide) (by decide)⟩

/-- A successful step-2 validation returns the input unchanged. -/
theorem validateStep2_ok (fv : Value) (ui u : FMap) (h : validateStep2 fv ui = .ok u) :
    u = ui := by
  rw [validateStep2] at h
  iterate 6 (all_goals (try split at h))
  all_goals (first | (cases h; rfl) | exact Except.noConfusion h)

/-- A successful step-3 validation returns the input unchanged except for
the coerced week-numbers toggle. -/
theorem validateStep3_ok (fv : Value) (u0 u : FMap) (h : validateStep3 fv u0 = .ok u) :
    u = u0 ∨ ∃ b, u = fmSet u0 "force_week_numbers" (Value.bool b) := by
  rw [validateStep3] at h
  iterate 6 (all_goals (try split at h))
  all_goals first
    | exact Except.noConfusion h
    | (cases h; exact Or.inl rfl)
    | (cases h; exact Or.inr ⟨_, rfl⟩)

/-- A successful step-4 validation returns the input unchanged. -/
theorem validateStep4_ok (fv : Value) (u0 u : FMap) (h : validateStep4 fv u0 = .ok u) :
    u = u0 := by
  rw [validateStep4] at h
  iterate 4 (all_goals (try split at h))
  all_goals (first | (cases h; rfl) | exact Except.noConfusion h)

/-- A successful run of `days_to_list`'s loop leaves every key other than
the list key and the flag keys unchanged. -/
theorem days_go_get_preserved (L : List String) (m m' : FMap) (k : String)
    (hk : k ≠ "collection_days") (hkeys : ∀ dd ∈ L, k ≠ day_key dd)
    (h : days_go L m = some m') : fmGet m' k = fmGet m k := by
  induction L generalizing m with
  | nil =>
    rw [days_go] at h
    cases h
    rfl
  | cons dd t ih =>
    rw [days_go] at h
    cases hg : fmGet m (day_key dd) with
    | none => rw [hg] at h; cases h
    | some v =>
      rw [hg] at h
      have := ih _ (fun d' hd' => hkeys d' (List.mem_cons_of_mem _ hd')) h
      rw [this, fmGet_erase_ne _ _ _ (hkeys dd (List.mem_cons_self _ _))]
      by_cases ht : truthy v
      · rw [if_pos ht, days_append_get_ne _ _ _ hk]
      · rw [if_neg ht]

/-- `days_to_list` leaves every key other than the list key and the seven
flag keys unchanged. -/
theorem days_to_list_get_ne (ui u0 : FMap) (k : String)
    (hk : k ≠ "collection_days") (hkeys : ∀ dd ∈ WEEKDAYS, k ≠ day_key dd)
    (h : days_to_list ui = some u0) : fmGet u0 k = fmGet ui k := by
  rw [days_to_list] at h
  split at h
  · cases h; rfl
  · rw [days_go_get_preserved WEEKDAYS _ u0 k hk hkeys h, fmGet_set_ne _ _ _ _ hk]

/-- `weekdays_to_list` leaves every key other than the list key and the
five flag keys unchanged. -/
theorem weekdays_to_list_get_ne (ui u0 : FMap) (pfx k : String)
    (hk : k ≠ pfx) (hkeys : ∀ i ∈ [1, 2, 3, 4, 5], k ≠ wk_key pfx i)
    (h : weekdays_to_list ui pfx = some u0) : fmGet u0 k = fmGet ui k := by
  rw [weekdays_to_list] at h
  split at h
  · cases h; rfl
  · rw [weekdays_go_get_preserved pfx _ _ u0 k hk hkeys h, fmGet_set_ne _ _ _ _ hk]

/-- `weekdays_to_list` keeps the list key present when it succeeds. -/
theorem weekdays_to_list_contains (ui u0 : FMap) (pfx : String)
    (h : weekdays_to_list ui pfx = some u0) : fmContains u0 pfx = true := by
  rw [weekdays_to_list] at h
  split at h
  · cases h
    assumption
  · refine weekdays_go_contains_pfx pfx _ _ u0 (fun j hj => hj) h ?_
    rw [fmContains, fmGet_set_self]
    rfl

/-- The step-4 cleanup touches only the toggle and the two ordinal keys. -/
theorem step4_cleanup_get_ne (dd : FMap) (k : String)
    (h1 : k ≠ "force_week_numbers") (h2 : k ≠ "weekday_order_number")
    (h3 : k ≠ "week_order_number") : fmGet (step4_cleanup dd) k = fmGet dd k := by
  rw [step4_cleanup]
  split
  · rw [fmGet_erase_ne _ _ _ h1]
    split
    · split
      · rw [fmGet_erase_ne _ _ _ h2]
      · rfl
    · split
      · rw [fmGet_erase_ne _ _ _ h3]
      · rfl
  · rfl

/-- C2 counterexample: `vol.ALLOW_EXTRA` plus `self._data.update(...)`
merge extra keys verbatim, so a step-2 submission carrying a `frequency`
key overwrites the frequency fixed by step 1 — an annual session's stored
frequency becomes "weekly" after a successful step 2. -/
theorem C2_frequency_overwrite_counterexample :
    step1_user_init (initState "u") (some annualStep1Input) none =
      some (true, annualStep1State) ∧
    (step2_annual_group annualStep1State (some freqSmuggleInput) none).map
      (fun r => (r.1, fmGet r.2._data "frequency")) =
      some (true, some (Value.str "weekly")) := by decide

/-- A step result is `some` of a pair; equality of two such results gives
equal components. -/
theorem stepResult_inj {b1 b2 : Bool} {X Y : FlowState}
    (h : (some (b1, X) : Option (Bool × FlowState)) = some (b2, Y)) : b1 = b2 ∧ X = Y := by
  injection h with h1
  injection h1 with h2 h3
  exact ⟨h2, h3⟩

/-- C2 (amended): once set by step 1, the stored frequency is never
changed by a later step operation — step 2, step 3, step 4, or the
`update_data` they call with their step number — provided the user input
passed to that step does not itself contain the `frequency` key (extra
keys are merged verbatim into the record, so an input carrying the key
overwrites it). -/
theorem C2_frequency_immutable (st : FlowState) (ui : FMap) (d : Option FMap)
    (hui : fmContains ui "frequency" = false) :
    (∀ s : Nat, s = 2 ∨ s = 3 ∨ s = 4 →
      fmGet (update_data st ui s)._data "frequency" = fmGet st._data "frequency") ∧
    (∀ (b : Bool) (st' : FlowState), step2_annual_group st (some ui) d = some (b, st') →
      fmGet st'._data "frequency" = fmGet st._data "frequency") ∧
    (∀ (b : Bool) (st' : FlowState), step3_detail st (some ui) d = some (b, st') →
      fmGet st'._data "frequency" = fmGet st._data "frequency") ∧
    (∀ (b : Bool) (st' : FlowState), step4_final st (some ui) d = some (b, st') →
      fmGet st'._data "frequency" = fmGet st._data "frequency") := by
  have hget : fmGet ui "frequency" = none := fmGet_eq_none_of_not_contains _ _ hui
  refine ⟨?_, ?_, ?_, ?_⟩
  · intro s hs
    have hkeys : "frequency" ∉ stepFields s := by
      rcases hs with rfl | rfl | rfl <;> decide
    exact update_data_get_stable st ui s "frequency" (by decide) hget hkeys
  · intro b st' h
    cases b with
    | false => rw [(step2_false_state st (some ui) d st' h).1]
    | true =>
      simp only [step2_annual_group] at h
      cases hfv : fmGet st._data "frequency" with
      | none => rw [hfv] at h; exact Option.noConfusion h
      | some fv =>
        simp only [hfv] at h
        by_cases hne : ui ≠ ([] : FMap)
        · rw [if_pos hne] at h
          cases hv : validateStep2 fv ui with
          | error e =>
            simp only [hv] at h
            exact Bool.noConfusion (stepResult_inj h).1
          | ok updates =>
            simp only [hv] at h
            rw [validateStep2_ok fv ui updates hv] at h
            by_cases hg : freqIn fv GROUP_FREQUENCY = true
            · rw [if_pos hg] at h
              cases he : fmGet ui "entities" with
              | none => rw [he] at h; exact Option.noConfusion h
              | some ev =>
                simp only [he] at h
                cases hstl : string_to_list ev with
                | none => rw [hstl] at h; exact Option.noConfusion h
                | some lv =>
                  simp only [hstl] at h
                  obtain ⟨-, hX⟩ := stepResult_inj h
                  rw [← hX]
                  have hset : fmGet (fmSet ui "entities" lv) "frequency" = none := by
                    rw [fmGet_set_ne _ _ _ _ (by decide)]
                    exact hget
                  rw [update_data_get_stable _ _ 2 "frequency" (by decide) hset (by decide)]
                  exact hfv
            · rw [if_neg hg] at h
              obtain ⟨-, hX⟩ := stepResult_inj h
              rw [← hX]
              rw [update_data_get_stable _ _ 2 "frequency" (by decide) hget (by decide)]
              exact hfv
        · rw [if_neg hne] at h
          exact Bool.noConfusion (stepResult_inj h).1
  · intro b st' h
    cases b with
    | false => rw [(step3_false_state st (some ui) d st' h).1]
    | true =>
      simp only [step3_detail] at h
      cases hfv : fmGet st._data "frequency" with
      | none => rw [hfv] at h; exact Option.noConfusion h
      | some fv =>
        simp only [hfv] at h
        by_cases hne : ui ≠ ([] : FMap)
        · rw [if_pos hne] at h
          cases hdl : days_to_list ui with
          | none => rw [hdl] at h; exact Option.noConfusion h
          | some u0 =>
            simp only [hdl] at h
            have hu0 : fmGet u0 "frequency" = none := by
              rw [days_to_list_get_ne ui u0 "frequency" (by decide)
                (by intro dd hdd; fin_cases hdd <;> decide) hdl]
              exact hget
            cases hv3 : validateStep3 fv u0 with
            | error e =>
              simp only [hv3] at h
              cases hcd : fmGet u0 "collection_days" with
              | none => rw [hcd] at h; exact Option.noConfusion h
              | some cd =>
                simp only [hcd] at h
                cases hlen : valLen cd with
                | none => rw [hlen] at h; exact Option.noConfusion h
                | some n =>
                  simp only [hlen] at h
                  split at h
                  · rename_i heq
                    split at heq <;> exact Option.noConfusion heq
                  · exact Bool.noConfusion (stepResult_inj h).1
            | ok u =>
              simp only [hv3] at h
              have huf : fmGet u "frequency" = none := by
                rcases validateStep3_ok fv u0 u hv3 with rfl | ⟨bb, rfl⟩
                · exact hu0
                · rw [fmGet_set_ne _ _ _ _ (by decide)]
                  exact hu0
              cases hcd : fmGet u "collection_days" with
              | none => rw [hcd] at h; exact Option.noConfusion h
              | some cd =>
                simp only [hcd] at h
                cases hlen : valLen cd with
                | none => rw [hlen] at h; exact Option.noConfusion h
                | some n =>
                  simp only [hlen] at h
                  split at h
                  · obtain ⟨-, hX⟩ := stepResult_inj h
                    rw [← hX]
                    rw [update_data_get_stable _ _ 3 "frequency" (by decide) huf (by decide)]
                    exact hfv
                  · exact Bool.noConfusion (stepResult_inj h).1
        · rw [if_neg hne] at h
          exact Bool.noConfusion (stepResult_inj h).1
  · intro b st' h
    cases b with
    | false => rw [(step4_false_state st (some ui) d st' h).1]
    | true =>
      simp only [step4_final] at h
      cases hfv : fmGet st._data "frequency" with
      | none => rw [hfv] at h; exact Option.noConfusion h
      | some fv =>
        simp only [hfv] at h
        by_cases hne : ui ≠ ([] : FMap)
        · rw [if_pos hne] at h
          rw [Option.bind_eq_some] at h
          obtain ⟨u0, hA, h⟩ := h
          rw [Option.bind_eq_some] at h
          obtain ⟨u1, hB, h⟩ := h
          rw [Option.bind_eq_some] at h
          obtain ⟨errs, hC, h⟩ := h
          have hu0 : fmGet u0 "frequency" = none := by
            by_cases hm : freqIn fv MONTHLY_FREQUENCY = true
            · rw [if_pos hm] at hA
              cases htg : fmGet st._data "force_week_numbers" with
              | none => rw [htg] at hA; exact Option.noConfusion hA
              | some tv =>
                simp only [htg] at hA
                by_cases htv : truthy tv = true
                · rw [if_pos htv] at hA
                  rw [weekdays_to_list_get_ne ui u0 _ "frequency" (by decide)
                    (by intro i hi; fin_cases hi <;> decide) hA]
                  exact hget
                · rw [if_neg htv] at hA
                  rw [weekdays_to_list_get_ne ui u0 _ "frequency" (by decide)
                    (by intro i hi; fin_cases hi <;> decide) hA]
                  exact hget
            · rw [if_neg hm] at hA
              cases hA
              exact hget
          have hu1 : fmGet u1 "frequency" = none := by
            cases hh : fmGet u0 "holiday_pop_named" with
            | none => rw [hh] at hB; cases hB; exact hu0
            | some hv =>
              simp only [hh] at hB
              rw [Option.map_eq_some'] at hB
              obtain ⟨lv, hlv, hBe⟩ := hB
              rw [← hBe, fmGet_set_ne _ _ _ _ (by decide)]
              exact hu0
          cases errs with
          | some e =>
            simp only [Option.map_eq_some'] at h
            obtain ⟨s, hs, heq⟩ := h
            exact Bool.noConfusion (congrArg Prod.fst heq)
          | none =>
            cases hv4 : validateStep4 fv u1 with
            | error e =>
              simp only [hv4] at h
              obtain ⟨-, hX⟩ := stepResult_inj h
              rw [← hX]
              show fmGet (if fmContains (step4_cleanup
                  (update_data { st with errors := none, data_schema := [] } u1 4)._data)
                    "name" = true then
                  fmErase (step4_cleanup
                    (update_data { st with errors := none, data_schema := [] } u1 4)._data)
                    "name"
                  else step4_cleanup
                    (update_data { st with errors := none, data_schema := [] } u1 4)._data)
                "frequency" = some fv
              have hstable : fmGet (update_data { st with errors := none, data_schema := [] }
                  u1 4)._data "frequency" = fmGet st._data "frequency" :=
                update_data_get_stable _ _ 4 "frequency" (by decide) hu1 (by decide)
              split
              · rw [fmGet_erase_ne _ _ _ (by decide),
                  step4_cleanup_get_ne _ _ (by decide) (by decide) (by decide), hstable]
                exact hfv
              · rw [step4_cleanup_get_ne _ _ (by decide) (by decide) (by decide), hstable]
                exact hfv
            | ok u =>
              simp only [hv4] at h
              have hueq : u = u1 := validateStep4_ok fv u1 u hv4
              subst hueq
              obtain ⟨-, hX⟩ := stepResult_inj h
              rw [← hX]
              show fmGet (if fmContains (step4_cleanup
                  (update_data { st with errors := none, data_schema := [] } u 4)._data)
                    "name" = true then
                  fmErase (step4_cleanup
                    (update_data { st with errors := none, data_schema := [] } u 4)._data)
                    "name"
                  else step4_cleanup
                    (update_data { st with errors := none, data_schema := [] } u 4)._data)
                "frequency" = some fv
              have hstable : fmGet (update_data { st with errors := none, data_schema := [] }
                  u 4)._data "frequency" = fmGet st._data "frequency" :=
                update_data_get_stable _ _ 4 "frequency" (by decide) hu1 (by decide)
              split
              · rw [fmGet_erase_ne _ _ _ (by decide),
                  step4_cleanup_get_ne _ _ (by decide) (by decide) (by decide), hstable]
                exact hfv
              · rw [step4_cleanup_get_ne _ _ (by decide) (by decide) (by decide), hstable]
                exact hfv
        · rw [if_neg hne] at h
          rw [Option.map_eq_some'] at h
          obtain ⟨s, hs, heq⟩ := h
          exact Bool.noConfusion (congrArg Prod.fst heq)

/-- C2 witness: a concrete weekly session — step 2 applied with an input
not carrying the frequency key leaves the stored frequency unchanged. -/
theorem C2_frequency_immutable_witness :
    fmGet (update_data annualStep1State [("date", Value.str "12/25")] 2)._data "frequency" =
      fmGet annualStep1State._data "frequency" :=
  (C2_frequency_immutable annualStep1State [("date", Value.str "12/25")] none
    (by decide)).1 2 (Or.inl rfl)

/-- Merging in a map whose last write is `k := v` stores `v` at `k`. -/
theorem fmGet_merge_last (m u : FMap) (k : String) (v : Value) :
    fmGet (fmMerge m (fmSet u k v)) k = some v := by
  rw [fmSet, fmMerge, List.foldl_append]
  simp only [List.foldl_cons, List.foldl_nil]
  exact fmGet_set_self _ _ _

/-- `update_data` stores the value of a key written last by the input when
the key is not step-tagged and not the name. -/
theorem update_data_get_of_set (st : FlowState) (u : FMap) (s : Nat) (k : String) (v : Value)
    (hname : k ≠ "name") (hkeys : k ∉ stepFields s) :
    fmGet (update_data st (fmSet u k v) s)._data k = some v := by
  rw [update_data, extractName_data_get _ _ _ hname,
      stripFold_get _ _ _ _ (.inl hkeys), fmGet_merge_last]

/-- On a monthly-like category, a successful step-3 validation always
stores a coerced boolean under the toggle key. -/
theorem validateStep3_ok_monthly (fv : Value) (u0 u : FMap)
    (hm : freqIn fv MONTHLY_FREQUENCY = true) (h : validateStep3 fv u0 = .ok u) :
    ∃ bb, u = fmSet u0 "force_week_numbers" (Value.bool bb) := by
  rw [validateStep3] at h
  split at h
  · exact Except.noConfusion h
  · iterate 3 (all_goals (try split at h))
    all_goals first
      | exact Except.noConfusion h
      | (cases h; exact ⟨_, rfl⟩)
      | (rename_i hnm; exact absurd hm hnm)

/-- The step-4 cleanup on a record whose toggle is a boolean `bb`: the
toggle is deleted, the unused ordinal field is deleted, and the chosen
ordinal field keeps its binding. -/
theorem step4_cleanup_spec (D : FMap) (bb : Bool)
    (hD : fmGet D "force_week_numbers" = some (Value.bool bb)) :
    fmGet (step4_cleanup D) "force_week_numbers" = none ∧
    (bb = true → fmGet (step4_cleanup D) "weekday_order_number" = none ∧
      fmGet (step4_cleanup D) "week_order_number" = fmGet D "week_order_number") ∧
    (bb = false → fmGet (step4_cleanup D) "week_order_number" = none ∧
      fmGet (step4_cleanup D) "weekday_order_number" = fmGet D "weekday_order_number") := by
  have hc : fmContains D "force_week_numbers" = true := by
    rw [fmContains, hD]
    rfl
  simp only [step4_cleanup, if_pos hc, hD, Option.getD_some, truthy]
  cases bb with
  | true =>
    rw [if_pos rfl]
    refine ⟨fmGet_erase_self _ _, fun _ => ⟨?_, ?_⟩, fun hf => Bool.noConfusion hf⟩
    · rw [fmGet_erase_ne _ _ _ (by decide)]
      by_cases hw : fmContains D "weekday_order_number" = true
      · rw [if_pos hw]
        exact fmGet_erase_self _ _
      · rw [if_neg hw]
        have hwf : fmContains D "weekday_order_number" = false := by
          cases hx : fmContains D "weekday_order_number"
          · rfl
          · exact absurd hx hw
        exact fmGet_eq_none_of_not_contains _ _ hwf
    · rw [fmGet_erase_ne _ _ _ (by decide)]
      by_cases hw : fmContains D "weekday_order_number" = true
      · rw [if_pos hw]
        exact fmGet_erase_ne _ _ _ (by decide)
      · rw [if_neg hw]
  | false =>
    rw [if_neg (by decide)]
    refine ⟨fmGet_erase_self _ _, fun ht => Bool.noConfusion ht, fun _ => ⟨?_, ?_⟩⟩
    · rw [fmGet_erase_ne _ _ _ (by decide)]
      by_cases hw : fmContains D "week_order_number" = true
      · rw [if_pos hw]
        exact fmGet_erase_self _ _
      · rw [if_neg hw]
        have hwf : fmContains D "week_order_number" = false := by
          cases hx : fmContains D "week_order_number"
          · rfl
          · exact absurd hx hw
        exact fmGet_eq_none_of_not_contains _ _ hwf
    · rw [fmGet_erase_ne _ _ _ (by decide)]
      by_cases hw : fmContains D "week_order_number" = true
      · rw [if_pos hw]
        exact fmGet_erase_ne _ _ _ (by decide)
      · rw [if_neg hw]

/-- C1 counterexample: a monthly session completes step 3 with the toggle
set to false, then step 4 succeeds on an input that smuggles in
`force_week_numbers = true` as an extra key; the merge overwrites the
stored toggle before the cleanup runs, and the final record contains
neither ordinal-list field. -/
theorem C1_toggle_smuggle_counterexample :
    step1_user_init (initState "u") (some monthlyStep1Input) none =
      some (true, monthlyStep1State) ∧
    step3_detail monthlyStep1State (some fridayFlagsInput) none =
      some (true, monthlyStep3State) ∧
    (step4_final monthlyStep3State (some toggleSmuggledInput) none).map
      (fun r => (r.1, fmContains r.2._data "week_order_number",
                 fmContains r.2._data "weekday_order_number")) =
      some (true, false, false) := by decide

/-- C1 (amended): for a monthly-like session, a successful step 3 stores
the force-week-numbers toggle as a boolean, and a successful step 4 whose
user input does not itself contain the toggle key leaves a record that
contains exactly one ordinal-list field — `week_order_number` when the
stored toggle was true, `weekday_order_number` when it was false — and
never the other ordinal field or the toggle itself. -/
theorem C1_step4_mutual_exclusion :
    (∀ (st0 st1 : FlowState) (ui3 : FMap) (d3 : Option FMap) (fv : Value),
      fmGet st0._data "frequency" = some fv → freqIn fv MONTHLY_FREQUENCY = true →
      step3_detail st0 (some ui3) d3 = some (true, st1) →
      ∃ bb, fmGet st1._data "force_week_numbers" = some (Value.bool bb)) ∧
    (∀ (st : FlowState) (ui : FMap) (d : Option FMap) (st' : FlowState) (fv : Value) (b : Bool),
      fmGet st._data "frequency" = some fv → freqIn fv MONTHLY_FREQUENCY = true →
      fmGet st._data "force_week_numbers" = some (Value.bool b) →
      fmContains ui "force_week_numbers" = false →
      step4_final st (some ui) d = some (true, st') →
      fmContains st'._data "force_week_numbers" = false ∧
      (b = true → fmContains st'._data "week_order_number" = true ∧
        fmContains st'._data "weekday_order_number" = false) ∧
      (b = false → fmContains st'._data "weekday_order_number" = true ∧
        fmContains st'._data "week_order_number" = false)) := by
  constructor
  · intro st0 st1 ui3 d3 fv hfv hm h3
    simp only [step3_detail] at h3
    simp only [hfv] at h3
    by_cases hne : ui3 ≠ ([] : FMap)
    · rw [if_pos hne] at h3
      cases hdl : days_to_list ui3 with
      | none => rw [hdl] at h3; exact Option.noConfusion h3
      | some u0 =>
        simp only [hdl] at h3
        cases hv3 : validateStep3 fv u0 with
        | error e =>
          simp only [hv3] at h3
          cases hcd : fmGet u0 "collection_days" with
          | none => rw [hcd] at h3; exact Option.noConfusion h3
          | some cd =>
            simp only [hcd] at h3
            cases hlen : valLen cd with
            | none => rw [hlen] at h3; exact Option.noConfusion h3
            | some n =>
              simp only [hlen] at h3
              split at h3
              · rename_i heq
                split at heq <;> exact Option.noConfusion heq
              · exact Bool.noConfusion (stepResult_inj h3).1
        | ok u =>
          simp only [hv3] at h3
          obtain ⟨bb, rfl⟩ := validateStep3_ok_monthly fv u0 u hm hv3
          cases hcd : fmGet (fmSet u0 "force_week_numbers" (Value.bool bb))
              "collection_days" with
          | none => rw [hcd] at h3; exact Option.noConfusion h3
          | some cd =>
            simp only [hcd] at h3
            cases hlen : valLen cd with
            | none => rw [hlen] at h3; exact Option.noConfusion h3
            | some n =>
              simp only [hlen] at h3
              split at h3
              · obtain ⟨-, hX⟩ := stepResult_inj h3
                refine ⟨bb, ?_⟩
                rw [← hX]
                exact update_data_get_of_set _ _ 3 _ _ (by decide) (by decide)
              · exact Bool.noConfusion (stepResult_inj h3).1
    · rw [if_neg hne] at h3
      exact Bool.noConfusion (stepResult_inj h3).1
  · intro st ui d st' fv b hfreq hmon htog hui h
    cases b with
    | true =>
      simp only [step4_final] at h
      simp only [hfreq] at h
      by_cases hne : ui ≠ ([] : FMap)
      · rw [if_pos hne, if_pos hmon] at h
        simp [htog, truthy] at h
        rw [Option.bind_eq_some] at h
        obtain ⟨u0, hA, h⟩ := h
        rw [Option.bind_eq_some] at h
        obtain ⟨u1, hB, h⟩ := h
        rw [Option.bind_eq_some] at h
        obtain ⟨errs, hC, h⟩ := h
        have hcont0 : fmContains u0 "week_order_number" = true :=
          weekdays_to_list_contains ui u0 _ hA
        have htog0 : fmGet u0 "force_week_numbers" = none := by
          rw [weekdays_to_list_get_ne ui u0 _ _ (by decide)
            (by intro i hi; fin_cases hi <;> decide) hA]
          exact fmGet_eq_none_of_not_contains _ _ hui
        have hu1 : fmGet u1 "week_order_number" = fmGet u0 "week_order_number" ∧
            fmGet u1 "force_week_numbers" = none := by
          cases hh : fmGet u0 "holiday_pop_named" with
          | none => rw [hh] at hB; cases hB; exact ⟨rfl, htog0⟩
          | some hv =>
            simp only [hh] at hB
            rw [Option.map_eq_some'] at hB
            obtain ⟨lv, hlv, hBe⟩ := hB
            rw [← hBe]
            refine ⟨fmGet_set_ne _ _ _ _ (by decide), ?_⟩
            rw [fmGet_set_ne _ _ _ _ (by decide)]
            exact htog0
        cases errs with
        | some e =>
          rw [Option.map_eq_some'] at h
          obtain ⟨s, hs, heq⟩ := h
          exact Bool.noConfusion (congrArg Prod.fst heq)
        | none =>
          cases hv4 : validateStep4 fv u1 with
          | error e =>
            simp only [hv4] at hC
            rw [if_pos hmon] at hC
            cases hgv : fmGet u1 "week_order_number" with
            | none => rw [hgv] at hC; exact Option.noConfusion hC
            | some v =>
              simp only [hgv] at hC
              cases hvl : valLen v with
              | none => rw [hvl] at hC; exact Option.noConfusion hC
              | some n =>
                simp only [hvl] at hC
                have hin := Option.some.inj hC
                split at hin <;> exact Option.noConfusion hin
          | ok u =>
            simp only [hv4] at hC h
            rw [validateStep4_ok fv u1 u hv4] at hC h
            rw [if_pos hmon] at hC
            cases hgv : fmGet u1 "week_order_number" with
            | none => rw [hgv] at hC; exact Option.noConfusion hC
            | some v =>
              simp only [hgv] at hC
              cases hvl : valLen v with
              | none => rw [hvl] at hC; exact Option.noConfusion hC
              | some n =>
                simp only [hvl] at hC
                have hin := Option.some.inj hC
                have hn0 : ¬ (n = 0) := by
                  intro hn
                  rw [if_pos hn] at hin
                  exact Option.noConfusion hin
                have hvne : fmGet u1 "week_order_number" ≠ some (Value.str "") := by
                  rw [hgv]
                  intro hcv
                  have hv' := Option.some.inj hcv
                  subst hv'
                  have h0 : ("" : String).length = n := Option.some.inj hvl
                  refine hn0 ?_
                  rw [← h0]
                  rfl
                have hDtog : fmGet (update_data { st with errors := none, data_schema := [] }
                    u1 4)._data "force_week_numbers" = some (Value.bool true) := by
                  rw [update_data_get_stable _ _ 4 _ (by decide) hu1.2 (by decide)]
                  exact htog
                have hDK : fmContains (update_data { st with errors := none, data_schema := [] }
                    u1 4)._data "week_order_number" = true := by
                  refine update_data_contains_present _ _ 4 _ (by decide) ?_ hvne
                  rw [fmContains, hgv]
                  rfl
                obtain ⟨hcl1, hcl2, hcl3⟩ := step4_cleanup_spec _ true hDtog
                obtain ⟨-, hX⟩ := stepResult_inj h
                have hd3 : st'._data =
                    (if fmContains (step4_cleanup
                        (update_data { st with errors := none, data_schema := [] } u1 4)._data)
                        "name" = true then
                      fmErase (step4_cleanup
                        (update_data { st with errors := none, data_schema := [] } u1 4)._data)
                        "name"
                    else step4_cleanup
                      (update_data { st with errors := none, data_schema := [] } u1 4)._data) := by
                  rw [← hX]
                refine ⟨?_, fun _ => ⟨?_, ?_⟩, fun hf => Bool.noConfusion hf⟩
                · rw [fmContains, hd3]
                  split
                  · rw [fmGet_erase_ne _ _ _ (by decide), hcl1]
                    rfl
                  · rw [hcl1]
                    rfl
                · rw [fmContains, hd3]
                  rw [fmContains] at hDK
                  split
                  · rw [fmGet_erase_ne _ _ _ (by decide), (hcl2 rfl).2]
                    exact hDK
                  · rw [(hcl2 rfl).2]
                    exact hDK
                · rw [fmContains, hd3]
                  split
                  · rw [fmGet_erase_ne _ _ _ (by decide), (hcl2 rfl).1]
                    rfl
                  · rw [(hcl2 rfl).1]
                    rfl
      · rw [if_neg hne] at h
        rw [Option.map_eq_some'] at h
        obtain ⟨s, hs, heq⟩ := h
        exact Bool.noConfusion (congrArg Prod.fst heq)
    | false =>
      simp only [step4_final] at h
      simp only [hfreq] at h
      by_cases hne : ui ≠ ([] : FMap)
      · rw [if_pos hne, if_pos hmon] at h
        simp [htog, truthy] at h
        rw [Option.bind_eq_some] at h
        obtain ⟨u0, hA, h⟩ := h
        rw [Option.bind_eq_some] at h
        obtain ⟨u1, hB, h⟩ := h
        rw [Option.bind_eq_some] at h
        obtain ⟨errs, hC, h⟩ := h
        have hcont0 : fmContains u0 "weekday_order_number" = true :=
          weekdays_to_list_contains ui u0 _ hA
        have htog0 : fmGet u0 "force_week_numbers" = none := by
          rw [weekdays_to_list_get_ne ui u0 _ _ (by decide)
            (by intro i hi; fin_cases hi <;> decide) hA]
          exact fmGet_eq_none_of_not_contains _ _ hui
        have hu1 : fmGet u1 "weekday_order_number" = fmGet u0 "weekday_order_number" ∧
            fmGet u1 "force_week_numbers" = none := by
          cases hh : fmGet u0 "holiday_pop_named" with
          | none => rw [hh] at hB; cases hB; exact ⟨rfl, htog0⟩
          | some hv =>
            simp only [hh] at hB
            rw [Option.map_eq_some'] at hB
            obtain ⟨lv, hlv, hBe⟩ := hB
            rw [← hBe]
            refine ⟨fmGet_set_ne _ _ _ _ (by decide), ?_⟩
            rw [fmGet_set_ne _ _ _ _ (by decide)]
            exact htog0
        cases errs with
        | some e =>
          rw [Option.map_eq_some'] at h
          obtain ⟨s, hs, heq⟩ := h
          exact Bool.noConfusion (congrArg Prod.fst heq)
        | none =>
          cases hv4 : validateStep4 fv u1 with
          | error e =>
            simp only [hv4] at hC
            rw [if_pos hmon] at hC
            cases hgv : fmGet u1 "weekday_order_number" with
            | none => rw [hgv] at hC; exact Option.noConfusion hC
            | some v =>
              simp only [hgv] at hC
              cases hvl : valLen v with
              | none => rw [hvl] at hC; exact Option.noConfusion hC
              | some n =>
                simp only [hvl] at hC
                have hin := Option.some.inj hC
                split at hin <;> exact Option.noConfusion hin
          | ok u =>
            simp only [hv4] at hC h
            rw [validateStep4_ok fv u1 u hv4] at hC h
            rw [if_pos hmon] at hC
            cases hgv : fmGet u1 "weekday_order_number" with
            | none => rw [hgv] at hC; exact Option.noConfusion hC
            | some v =>
              simp only [hgv] at hC
              cases hvl : valLen v with
              | none => rw [hvl] at hC; exact Option.noConfusion hC
              | some n =>
                simp only [hvl] at hC
                have hin := Option.some.inj hC
                have hn0 : ¬ (n = 0) := by
                  intro hn
                  rw [if_pos hn] at hin
                  exact Option.noConfusion hin
                have hvne : fmGet u1 "weekday_order_number" ≠ some (Value.str "") := by
                  rw [hgv]
                  intro hcv
                  have hv' := Option.some.inj hcv
                  subst hv'
                  have h0 : ("" : String).length = n := Option.some.inj hvl
                  refine hn0 ?_
                  rw [← h0]
                  rfl
                have hDtog : fmGet (update_data { st with errors := none, data_schema := [] }
                    u1 4)._data "force_week_numbers" = some (Value.bool false) := by
                  rw [update_data_get_stable _ _ 4 _ (by decide) hu1.2 (by decide)]
                  exact htog
                have hDK : fmContains (update_data { st with errors := none, data_schema := [] }
                    u1 4)._data "weekday_order_number" = true := by
                  refine update_data_contains_present _ _ 4 _ (by decide) ?_ hvne
                  rw [fmContains, hgv]
                  rfl
                obtain ⟨hcl1, hcl2, hcl3⟩ := step4_cleanup_spec _ false hDtog
                obtain ⟨-, hX⟩ := stepResult_inj h
                have hd3 : st'._data =
                    (if fmContains (step4_cleanup
                        (update_data { st with errors := none, data_schema := [] } u1 4)._data)
                        "name" = true then
                      fmErase (step4_cleanup
                        (update_data { st with errors := none, data_schema := [] } u1 4)._data)
                        "name"
                    else step4_cleanup
                      (update_data { st with errors := none, data_schema := [] } u1 4)._data) := by
                  rw [← hX]
                refine ⟨?_, fun hf => Bool.noConfusion hf, fun _ => ⟨?_, ?_⟩⟩
                · rw [fmContains, hd3]
                  split
                  · rw [fmGet_erase_ne _ _ _ (by decide), hcl1]
                    rfl
                  · rw [hcl1]
                    rfl
                · rw [fmContains, hd3]
                  rw [fmContains] at hDK
                  split
                  · rw [fmGet_erase_ne _ _ _ (by decide), (hcl3 rfl).2]
                    exact hDK
                  · rw [(hcl3 rfl).2]
                    exact hDK
                · rw [fmContains, hd3]
                  split
                  · rw [fmGet_erase_ne _ _ _ (by decide), (hcl3 rfl).1]
                    rfl
                  · rw [(hcl3 rfl).1]
                    rfl
      · rw [if_neg hne] at h
        rw [Option.map_eq_some'] at h
        obtain ⟨s, hs, heq⟩ := h
        exact Bool.noConfusion (congrArg Prod.fst heq)

/-- C1 witness: the honest monthly session — step 3 stores the toggle as
a boolean, and the step-4 success on a clean ordinal submission keeps
`weekday_order_number`, drops `week_order_number`, and drops the toggle. -/
theorem C1_step4_mutual_exclusion_witness :
    (∃ bb, fmGet monthlyStep3State._data "force_week_numbers" = some (Value.bool bb)) ∧
    ∃ st', step4_final monthlyStep3State (some weekdayOrdinalInput) none = some (true, st') ∧
      fmContains st'._data "force_week_numbers" = false ∧
      fmContains st'._data "weekday_order_number" = true ∧
      fmContains st'._data "week_order_number" = false := by
  constructor
  · exact C1_step4_mutual_exclusion.1 monthlyStep1State monthlyStep3State fridayFlagsInput
      none (Value.str "monthly") (by decide) (by decide) (by decide)
  · obtain ⟨st', hrun⟩ :
        ∃ st', step4_final monthlyStep3State (some weekdayOrdinalInput) none =
          some (true, st') :=
      ⟨((step4_final monthlyStep3State (some weekdayOrdinalInput) none).get
          (by decide)).2, by decide⟩
    have hfacts := C1_step4_mutual_exclusion.2 monthlyStep3State weekdayOrdinalInput none st'
      (Value.str "monthly") false (by decide) (by decide) (by decide) (by decide) hrun
    exact ⟨st', hrun, hfacts.1, (hfacts.2.2 rfl).1, (hfacts.2.2 rfl).2⟩
